import Mathlib

/-!
Verification of the sportsref play-by-play classifier
(src/sportsref/nba/pbp.py, function parsePlay) and of the
win-probability correction pass of the NFL box score module
(src/sportsref/nfl/boxscores.py, method BoxScore.pbp, lines 307-338).

The classifier is modelled with a small backtracking regular-expression
engine that mirrors the semantics of Python re for the fragment the
source uses: re.match anchoring at the start of the string,
re.IGNORECASE literal matching, left-first alternation priority, greedy
and lazy repetition of character classes, optional pieces, and named
capture groups.  Every pattern string of the source is transliterated
into a Regex value with the same name as in the source.
-/

set_option autoImplicit false

namespace SportsRef

/-- Character classes appearing in the source patterns. -/
inductive CharClass
  | word
  | digit
  | anyNoNL
  | notSemi
deriving DecidableEq

/-- Python ASCII semantics of the classes used in pbp.py. -/
def classMatches : CharClass → Char → Bool
  | .word, c => c.isAlphanum || c == '_'
  | .digit, c => c.isDigit
  | .anyNoNL, c => c != '\n'
  | .notSemi, c => c != ';'

/-- Abstract syntax of the fragment of Python regular expressions used in
sportsref/nba/pbp.py: literals, bounded repetition of a character class,
concatenation, prioritized alternation and named capture groups. -/
inductive Regex
  | eps
  | lit (s : List Char)
  | rep (cc : CharClass) (lo : Nat) (hi : Option Nat) (lz : Bool)
  | cat (r₁ r₂ : Regex)
  | alt (r₁ r₂ : Regex)
  | grp (name : String) (r : Regex)

/-- Named captures of a match, in the order the groups matched. -/
abbrev Caps := List (String × String)

/-- Length of the longest prefix made of characters of the class. -/
def classPrefixLen (cc : CharClass) : List Char → Nat
  | [] => 0
  | c :: cs => if classMatches cc c then classPrefixLen cc cs + 1 else 0

/-- Candidate repetition counts in backtracking priority order: a greedy
repetition tries the longest count first, a lazy one the shortest. -/
def repCounts (lo maxTake : Nat) (lz : Bool) : List Nat :=
  if lo > maxTake then []
  else if lz then (List.range (maxTake - lo + 1)).map (lo + ·)
  else (List.range (maxTake - lo + 1)).map (maxTake - ·)

/-- All ways the regex can match a prefix of the input, as
(captures, consumed length) pairs, in Python backtracking priority order
(alternation left first, greedy repetition longest first, lazy shortest
first).  Literals compare case-insensitively because every pattern in the
source is compiled with re.IGNORECASE / re.I. -/
def runRE : Regex → List Char → List (Caps × Nat)
  | .eps, _ => [([], 0)]
  | .lit l, s =>
      if (s.take l.length).map Char.toLower == l.map Char.toLower
      then [([], l.length)] else []
  | .rep cc lo hi lz, s =>
      let available := classPrefixLen cc s
      let maxTake := match hi with
        | some h => min h available
        | none => available
      (repCounts lo maxTake lz).map (fun k => (([] : Caps), k))
  | .cat r₁ r₂, s =>
      (runRE r₁ s).flatMap fun p =>
        (runRE r₂ (s.drop p.2)).map fun q => (p.1 ++ q.1, p.2 + q.2)
  | .alt r₁ r₂, s => runRE r₁ s ++ runRE r₂ s
  | .grp n r, s =>
      (runRE r s).map fun p => (p.1 ++ [(n, String.mk (s.take p.2))], p.2)

/-- Python re.match: anchored at the start of the string, first match in
backtracking priority order; the matched prefix need not be the whole
string. -/
def matchRE (r : Regex) (s : String) : Option Caps :=
  ((runRE r s.data).head?).map Prod.fst

/-- Lookup in m.groupdict(): the capture of a named group, none when the
group did not participate in the match. -/
def capsFind (cs : Caps) (n : String) : Option String :=
  (cs.find? (fun p => p.1 == n)).map Prod.snd

/-- Literal regex from a string. -/
def strLit (s : String) : Regex := .lit s.data

/-- Concatenation of a list of regexes. -/
def rcat (rs : List Regex) : Regex := rs.foldr .cat .eps

/-- Greedy optional piece, the source's trailing question mark. -/
def ropt (r : Regex) : Regex := .alt r .eps

/-! Transliterations of the pattern strings of parsePlay, in source
order and with the source names.  playerRE is the fragment
backslash-w{0,7} backslash-d{2} interpolated into every rule. -/

def playerRE : Regex := .cat (.rep .word 0 (some 7) false) (.rep .digit 2 (some 2) false)

/-- Pattern fragment for shot distance, a leading space and then either
a digit capture with units or the literal at-rim form. -/
def distRE : Regex :=
  .cat (strLit " ")
    (.alt (rcat [strLit "from ", .grp "shotDist" (.rep .digit 1 none false), strLit " ft"])
      (strLit "at rim"))

def assistRE : Regex := rcat [strLit " (assist by ", .grp "assister" playerRE, strLit ")"]

def blockRE : Regex := rcat [strLit " (block by ", .grp "blocker" playerRE, strLit ")"]

/-- Field goal attempt pattern, lines 32-37 of pbp.py. -/
def shotRE : Regex :=
  rcat [.grp "shooter" playerRE, strLit " ",
    .grp "isFGM" (.alt (strLit "makes") (strLit "misses")), strLit " ",
    .grp "isThree" (.alt (strLit "2") (strLit "3")), strLit "-pt shot",
    distRE, ropt (.alt assistRE blockRE)]

/-- Jump ball pattern, lines 53-54. -/
def jumpRE : Regex :=
  rcat [strLit "Jump ball: ", .grp "awayJumper" playerRE, strLit " vs. ",
    .grp "homeJumper" playerRE,
    ropt (rcat [strLit " (", .grp "gainsPos" playerRE, strLit " gains possession)"])]

/-- Rebound pattern, lines 62-63. -/
def rebRE : Regex :=
  rcat [.grp "isOReb" (.alt (strLit "Offensive") (strLit "Defensive")),
    strLit " rebound by ", .grp "rebounder" (.alt playerRE (strLit "Team"))]

/-- Shooting foul pattern, lines 76-77. -/
def shotFoulRE : Regex :=
  rcat [strLit "Shooting", ropt (.grp "isBlockFoul" (strLit " block")),
    strLit " foul by ", .grp "fouler" playerRE,
    strLit " (drawn by ", .grp "drewFoul" playerRE, strLit ")"]

/-- Free throw pattern, lines 88-91. -/
def ftRE : Regex :=
  rcat [.grp "ftShooter" playerRE, strLit " ",
    .grp "isFTM" (.alt (strLit "makes") (strLit "misses")), strLit " ",
    ropt (.grp "isTechFT" (strLit "technical ")),
    ropt (.grp "isFlagFT" (strLit "flagrant ")),
    ropt (.grp "isClearPathFT" (strLit "clear path ")),
    strLit "free throw",
    ropt (rcat [strLit " ", .grp "ftNum" (.rep .digit 1 none false),
      strLit " of ", .grp "numAtt" (.rep .digit 1 none false)])]

/-- Substitution pattern, lines 104-105. -/
def subRE : Regex :=
  rcat [.grp "subIn" playerRE, strLit " enters the game for ", .grp "subOut" playerRE]

/-- Turnover pattern, lines 114-122; the four reason alternatives are
tried left to right exactly as the source joins them. -/
def toRE : Regex :=
  rcat [strLit "Turnover by ", .grp "turnoverBy" (.alt playerRE (strLit "Team")),
    strLit " (",
    .alt (.grp "shotClockViol" (strLit "shot clock"))
      (.alt (.grp "isTravel" (strLit "traveling"))
        (.alt (.grp "isOffFoul" (strLit "offensive foul"))
          (rcat [.grp "stealType" (.rep .notSemi 1 none false),
            ropt (rcat [strLit "; steal by ", .grp "stealer" playerRE])]))),
    strLit ")"]

/-- Offensive foul pattern, lines 135-137. -/
def offFoulRE : Regex :=
  rcat [strLit "Offensive", ropt (.grp "isCharge" (strLit " charge")),
    strLit " foul by ", .grp "turnoverBy" playerRE,
    ropt (rcat [strLit " (drawn by ", .grp "drewFoul" playerRE, strLit ")"])]

/-- Personal foul pattern, lines 152-154. -/
def foulRE : Regex :=
  rcat [strLit "Personal ", ropt (.grp "isTakeFoul" (strLit "take ")),
    ropt (.grp "isBlockFoul" (strLit "block ")),
    strLit "foul by ", .grp "fouler" playerRE,
    ropt (rcat [strLit " (drawn by ", .grp "drewFoul" playerRE, strLit ")"])]

/-- Loose ball foul pattern, lines 167-168. -/
def looseBallRE : Regex :=
  rcat [strLit "Loose ball foul by ", .grp "fouler" playerRE,
    ropt (rcat [strLit " (drawn by ", .grp "drewFoul" playerRE, strLit ")"])]

/-- Away from play foul pattern, lines 178-179. -/
def awayFromBallRE : Regex :=
  rcat [strLit "Away from play foul by ", .grp "fouler" playerRE,
    ropt (rcat [strLit " (drawn by ", .grp "drewFoul" playerRE, strLit ")"])]

/-- Inbound foul pattern, lines 191-192. -/
def inboundRE : Regex :=
  rcat [strLit "Inbound foul by ", .grp "fouler" playerRE,
    ropt (rcat [strLit " (drawn by ", .grp "drewFoul" playerRE, strLit ")"])]

/-- Flagrant foul pattern, lines 204-205. -/
def flagrantRE : Regex :=
  rcat [strLit "Flagrant foul type ", .grp "flagType" (.alt (strLit "1") (strLit "2")),
    strLit " by ", .grp "fouler" playerRE,
    ropt (rcat [strLit " (drawn by ", .grp "drewFoul" playerRE, strLit ")"])]

/-- Clear path foul pattern, lines 215-216. -/
def clearPathRE : Regex :=
  rcat [strLit "Clear path foul by ", .grp "fouler" playerRE,
    ropt (rcat [strLit " (drawn by ", .grp "drewFoul" playerRE, strLit ")"])]

/-- Timeout pattern, line 228; the team capture is a lazy dot-star. -/
def timeoutRE : Regex :=
  rcat [.grp "timeoutTeam" (.rep .anyNoNL 0 none true), strLit " ",
    ropt (strLit "full "), strLit "timeout"]

/-- Technical foul pattern, line 242. -/
def techRE : Regex :=
  rcat [strLit "Technical foul by ", .grp "fouler" (.alt playerRE (strLit "Team"))]

/-- Defensive three seconds pattern, line 252. -/
def def3TechRE : Regex :=
  rcat [strLit "Def 3 sec tech foul by ", .grp "fouler" playerRE]

/-- Violation pattern, lines 263-264; the violation type is a greedy
dot-star capture. -/
def violRE : Regex :=
  rcat [strLit "Violation by ", .grp "violator" (.alt playerRE (strLit "Team")),
    strLit " (", .grp "violType" (.rep .anyNoNL 0 none false), strLit ")"]

/-- The details argument of parsePlay: either a string or a non-string
cell (the table extractor emits a numeric NaN sentinel for empty detail
cells); parsePlay checks isinstance(details, basestring) first. -/
inductive Details
  | str (s : String)
  | nonString
deriving DecidableEq

/-- The dictionary parsePlay builds, as a record.  Keys a branch never
sets keep their defaults (an absent dictionary key); captured groups are
Option String, normalized yes/no markers are Bool.  The turnover branch
stores the raw isOffFoul capture in the dictionary, but every record it
actually returns has that capture equal to None (a truthy capture makes
the branch return None instead), so the field is typed Bool here and is
set only by the offensive foul branch. -/
structure Play where
  detail : String
  home : String
  away : String
  isHomePlay : Bool
  isFGA : Bool := false
  shooter : Option String := none
  isFGM : Bool := false
  isThree : Bool := false
  shotDist : Option Int := none
  assister : Option String := none
  blocker : Option String := none
  isAssist : Bool := false
  isBlock : Bool := false
  team : Option String := none
  opp : Option String := none
  isJumpBall : Bool := false
  awayJumper : Option String := none
  homeJumper : Option String := none
  gainsPos : Option String := none
  isReb : Bool := false
  isOReb : Bool := false
  isDReb : Bool := false
  rebounder : Option String := none
  rebTeam : Option String := none
  isShotFoul : Bool := false
  isBlockFoul : Bool := false
  fouler : Option String := none
  drewFoul : Option String := none
  isFTA : Bool := false
  ftShooter : Option String := none
  isFTM : Option String := none
  isTechFT : Bool := false
  isFlagFT : Bool := false
  isClearPathFT : Bool := false
  ftNum : Option String := none
  numAtt : Option String := none
  isSub : Bool := false
  subIn : Option String := none
  subOut : Option String := none
  subTeam : Option String := none
  isTO : Bool := false
  turnoverBy : Option String := none
  shotClockViol : Option String := none
  isTravel : Bool := false
  isOffFoul : Bool := false
  stealType : Option String := none
  stealer : Option String := none
  isFoul : Bool := false
  isCharge : Bool := false
  isTakeFoul : Bool := false
  foulTeam : Option String := none
  isLooseBallFoul : Bool := false
  isAwayFromBallFoul : Bool := false
  isInboundFoul : Bool := false
  isFlagrant : Bool := false
  flagType : Option String := none
  isClearPathFoul : Bool := false
  isTimeout : Bool := false
  timeoutTeam : Option String := none
  isTechFoul : Bool := false
  isDefThreeSecs : Bool := false
  isViolation : Bool := false
  violator : Option String := none
  violType : Option String := none
  violTeam : Option String := none
deriving DecidableEq

/-- Value of a decimal digit string.  Captures fed to int() by the
source are produced by digit-only patterns, on which Python int agrees
with this fold. -/
def digitsToNat (s : String) : Nat :=
  s.data.foldl (fun n c => n * 10 + (c.toNat - Char.toNat (Char.ofNat 48))) 0

/-- int() applied to the shot distance after the None-to-0 default of
line 42; the capture is a nonempty digit string whenever present. -/
def distToInt (o : Option String) : Int :=
  match o with
  | some s => (digitsToNat s : Nat)
  | none => 0

/-- The classifier parsePlay of sportsref/nba/pbp.py.  tmap stands for
the external lookup sportsref.nba.teams.teamIDs() used only by the
timeout branch (a mapping from team id to team name, queried with .get
and the team id itself as default); it is not part of this repository
and is passed as a parameter.  The print on the fallback path is a
side effect with no influence on the returned value and is dropped. -/
def parsePlay (tmap : String → Option String) (details : Details)
    (hm aw : String) (is_hm : Bool) : Option Play :=
  match details with
  | .nonString => none
  | .str d =>
    let p : Play := { detail := d, home := hm, away := aw, isHomePlay := is_hm }
    match matchRE shotRE d with
    | some c => some { p with
        isFGA := true,
        shooter := capsFind c "shooter",
        isFGM := capsFind c "isFGM" == some "makes",
        isThree := capsFind c "isThree" == some "3",
        shotDist := some (distToInt (capsFind c "shotDist")),
        assister := capsFind c "assister",
        blocker := capsFind c "blocker",
        isAssist := (capsFind c "assister").isSome,
        isBlock := (capsFind c "blocker").isSome,
        team := some (if is_hm then hm else aw),
        opp := some (if is_hm then aw else hm) }
    | none =>
    match matchRE jumpRE d with
    | some c => some { p with
        isJumpBall := true,
        awayJumper := capsFind c "awayJumper",
        homeJumper := capsFind c "homeJumper",
        gainsPos := capsFind c "gainsPos" }
    | none =>
    match matchRE rebRE d with
    | some c =>
        let isO := capsFind c "isOReb" == some "Offensive"
        let rebT := if is_hm then hm else aw
        let other := if is_hm then aw else hm
        some { p with
          isReb := true,
          isOReb := isO,
          isDReb := !isO,
          rebounder := capsFind c "rebounder",
          rebTeam := some rebT,
          team := some (if isO then rebT else other),
          opp := some (if !isO then rebT else other) }
    | none =>
    match matchRE shotFoulRE d with
    | some c => some { p with
        isShotFoul := true,
        isBlockFoul := capsFind c "isBlockFoul" == some " block",
        fouler := capsFind c "fouler",
        drewFoul := capsFind c "drewFoul",
        team := some (if is_hm then hm else aw),
        opp := some (if is_hm then aw else hm) }
    | none =>
    match matchRE ftRE d with
    | some c => some { p with
        isFTA := true,
        ftShooter := capsFind c "ftShooter",
        isFTM := capsFind c "isFTM",
        isTechFT := capsFind c "isTechFT" == some "technical ",
        isFlagFT := capsFind c "isFlagFT" == some "flagrant ",
        isClearPathFT := capsFind c "isClearPathFT" == some "clear path ",
        ftNum := capsFind c "ftNum",
        numAtt := capsFind c "numAtt",
        team := some (if is_hm then hm else aw),
        opp := some (if is_hm then aw else hm) }
    | none =>
    match matchRE subRE d with
    | some c => some { p with
        isSub := true,
        subIn := capsFind c "subIn",
        subOut := capsFind c "subOut",
        subTeam := some (if is_hm then hm else aw) }
    | none =>
    match matchRE toRE d with
    | some c =>
        if (capsFind c "isOffFoul").isSome then none
        else some { p with
          isTO := true,
          turnoverBy := capsFind c "turnoverBy",
          shotClockViol := capsFind c "shotClockViol",
          isTravel := capsFind c "isTravel" == some "traveling",
          stealType := capsFind c "stealType",
          stealer := capsFind c "stealer",
          team := some (if is_hm then hm else aw),
          opp := some (if is_hm then aw else hm) }
    | none =>
    match matchRE offFoulRE d with
    | some c => some { p with
        isFoul := true,
        isOffFoul := true,
        isTO := true,
        isCharge := capsFind c "isCharge" == some " charge",
        turnoverBy := capsFind c "turnoverBy",
        drewFoul := capsFind c "drewFoul",
        fouler := capsFind c "turnoverBy",
        team := some (if is_hm then hm else aw),
        opp := some (if is_hm then aw else hm),
        foulTeam := some (if is_hm then hm else aw) }
    | none =>
    match matchRE foulRE d with
    | some c => some { p with
        isFoul := true,
        isTakeFoul := capsFind c "isTakeFoul" == some "take ",
        isBlockFoul := capsFind c "isBlockFoul" == some "block ",
        fouler := capsFind c "fouler",
        drewFoul := capsFind c "drewFoul",
        team := some (if is_hm then aw else hm),
        opp := some (if is_hm then hm else aw),
        foulTeam := some (if is_hm then hm else aw) }
    | none =>
    match matchRE looseBallRE d with
    | some c => some { p with
        isFoul := true,
        isLooseBallFoul := true,
        fouler := capsFind c "fouler",
        drewFoul := capsFind c "drewFoul",
        foulTeam := some (if is_hm then hm else aw) }
    | none =>
    match matchRE awayFromBallRE d with
    | some c => some { p with
        isFoul := true,
        isAwayFromBallFoul := true,
        fouler := capsFind c "fouler",
        drewFoul := capsFind c "drewFoul",
        team := some (if is_hm then aw else hm),
        opp := some (if is_hm then hm else aw),
        foulTeam := some (if is_hm then hm else aw) }
    | none =>
    match matchRE inboundRE d with
    | some c => some { p with
        isFoul := true,
        isInboundFoul := true,
        fouler := capsFind c "fouler",
        drewFoul := capsFind c "drewFoul",
        team := some (if is_hm then aw else hm),
        opp := some (if is_hm then hm else aw),
        foulTeam := some (if is_hm then hm else aw) }
    | none =>
    match matchRE flagrantRE d with
    | some c => some { p with
        isFoul := true,
        isFlagrant := true,
        flagType := capsFind c "flagType",
        fouler := capsFind c "fouler",
        drewFoul := capsFind c "drewFoul",
        foulTeam := some (if is_hm then hm else aw) }
    | none =>
    match matchRE clearPathRE d with
    | some c => some { p with
        isFoul := true,
        isClearPathFoul := true,
        fouler := capsFind c "fouler",
        drewFoul := capsFind c "drewFoul",
        team := some (if is_hm then aw else hm),
        opp := some (if is_hm then hm else aw),
        foulTeam := some (if is_hm then hm else aw) }
    | none =>
    match matchRE timeoutRE d with
    | some c =>
        let tm := if is_hm then hm else aw
        let isOfficialTO := capsFind c "timeoutTeam" == some "Official"
        some { p with
          isTimeout := true,
          team := some tm,
          opp := some (if is_hm then aw else hm),
          timeoutTeam := some (if isOfficialTO then "Official" else (tmap tm).getD tm) }
    | none =>
    match matchRE techRE d with
    | some c => some { p with
        isFoul := true,
        isTechFoul := true,
        fouler := capsFind c "fouler",
        foulTeam := some (if is_hm then hm else aw) }
    | none =>
    match matchRE def3TechRE d with
    | some c => some { p with
        isFoul := true,
        isTechFoul := true,
        isDefThreeSecs := true,
        fouler := capsFind c "fouler",
        foulTeam := some (if is_hm then hm else aw) }
    | none =>
    match matchRE violRE d with
    | some c => some { p with
        isViolation := true,
        violator := capsFind c "violator",
        violType := capsFind c "violType",
        violTeam := some (if is_hm then hm else aw) }
    | none => some p

/-!
Model of the win-probability correction pass, lines 307-338 of
src/sportsref/nfl/boxscores.py.  A table cell is Option Rat, none
standing for NaN; a whole column is a list of cells.  Label reads with
df.ix raise KeyError when the integer label is not in the index, so the
pass is modelled in Except String.  The pass reads and writes only the
home_wp and home_wpa columns; the secsElapsed and isTimeout columns are
inputs it only reads.
-/

/-- One row of the play-by-play table as the correction pass sees it.

Modelled from the spec: the secsElapsed column is produced by
sportsref.nfl.pbp.expandDetails, which is not part of this repository
snapshot; following the external-interface contract of the spec it is
the non-negative elapsed-seconds-in-period of the row, with value 0
reserved to signal a period boundary.  home_wp is the raw win
probability the model emitted for the row (none for a NaN cell), and
isTimeout the timeout flag produced by the detail parser. -/
structure PbpRow where
  secsElapsed : Nat
  isTimeout : Bool
  home_wp : Option Rat
deriving DecidableEq

/-- The winner of the game as used on lines 326-328: the home team, the
away team, or a tie (winner() returns NaN for a tie). -/
inductive Winner
  | home
  | away
  | tie
deriving DecidableEq

/-- finalWP of line 328: 50 if the game was a tie, otherwise
(winner == home) * 100. -/
def finalWPOf : Winner → Rat
  | .home => 100
  | .away => 0
  | .tie => 50

/-- Value of a column at an index, none when out of range or NaN. -/
def cell (l : List (Option Rat)) (i : Nat) : Option Rat :=
  (l[i]?).getD none

/-- NaN-propagating subtraction of two cells. -/
def osub : Option Rat → Option Rat → Option Rat
  | some a, some b => some (a - b)
  | _, _ => none

/-- Column diff of line 308: entry i is row i minus row i-1, with the
first entry NaN. -/
def diffCol (l : List (Option Rat)) : List (Option Rat) :=
  (List.range l.length).map fun i => if i = 0 then none else osub (cell l i) (cell l (i - 1))

/-- shift(1) of lines 310-312: a NaN enters at the front and the last
entry falls off; the length is unchanged (an empty column stays empty). -/
def shift1 (l : List (Option Rat)) : List (Option Rat) :=
  (none :: l).dropLast

/-- Forward fill with the most recent non-NaN value. -/
def ffillGo (last : Option Rat) : List (Option Rat) → List (Option Rat)
  | [] => []
  | x :: xs =>
      let v := match x with
        | some a => some a
        | none => last
      v :: ffillGo v xs

/-- fillna(method ffill) of line 315. -/
def ffill (l : List (Option Rat)) : List (Option Rat) :=
  ffillGo none l

/-- Read df.ix[i, col]: the cell when the label is in the index, a
KeyError otherwise. -/
def ixRead (col : List (Option Rat)) (i : Nat) : Except String (Option Rat) :=
  if i < col.length then .ok (cell col i) else .error "KeyError"

/-- The home_wp and home_wpa columns as the pass mutates them. -/
structure WPState where
  wp : List (Option Rat)
  wpa : List (Option Rat)
deriving DecidableEq

/-- Indices of the rows with secsElapsed equal to 0, in row order: the
boolean-mask selection df[df.secsElapsed == 0].index of line 317. -/
def zeroSecIdxs (rows : List PbpRow) : List Nat :=
  (List.range rows.length).filter
    (fun i => ((rows[i]?).map (fun r => r.secsElapsed == 0)).getD false)

/-- Indices of the rows flagged as timeouts, in row order: the selection
df[df.isTimeout].index of line 331. -/
def timeoutIdxs (rows : List PbpRow) : List Nat :=
  (List.range rows.length).filter
    (fun i => ((rows[i]?).map (fun r => r.isTimeout)).getD false)

/-- The loop of lines 319-322: for each zero-seconds index i, set
home_wp at i to the initial win probability and home_wpa at i to
home_wp at i+1 minus it. -/
def boundaryFix (initwp : Rat) : List Nat → WPState → Except String WPState
  | [], s => .ok s
  | i :: rest, s =>
      match ixRead (s.wp.set i (some initwp)) (i + 1) with
      | .error e => .error e
      | .ok v =>
          boundaryFix initwp rest
            ⟨s.wp.set i (some initwp), s.wpa.set i (osub v (some initwp))⟩

/-- Lines 323-329: read the home_wp recorded at the last index and set
home_wpa there to finalWP minus it.  The home_wp column itself is not
written.  df.iloc[-1] on an empty frame raises. -/
def lastFix (finalWP : Rat) (s : WPState) : Except String WPState :=
  if s.wp.length = 0 then .error "IndexError"
  else
    match ixRead s.wp (s.wp.length - 1) with
    | .error e => .error e
    | .ok v => .ok ⟨s.wp, s.wpa.set (s.wp.length - 1) (osub (some finalWP) v)⟩

/-- The loop of lines 332-338: zero home_wpa on each timeout row, then
reassign home_wpa on the following row from the home_wp column when
index t+2 exists, from finalWP otherwise. -/
def timeoutFix (finalWP : Rat) (n : Nat) : List Nat → WPState → Except String WPState
  | [], s => .ok s
  | t :: rest, s =>
      if t + 2 < n then
        match ixRead s.wp (t + 2) with
        | .error e => .error e
        | .ok a =>
          match ixRead s.wp (t + 1) with
          | .error e => .error e
          | .ok b =>
              timeoutFix finalWP n rest
                ⟨s.wp, (s.wpa.set t (some 0)).set (t + 1) (osub a b)⟩
      else
        match ixRead s.wp (t + 1) with
        | .error e => .error e
        | .ok b =>
            timeoutFix finalWP n rest
              ⟨s.wp, (s.wpa.set t (some 0)).set (t + 1) (osub (some finalWP) b)⟩

/-- The whole correction pass of lines 307-338 over the home_wp column:
diff into home_wpa, lag home_wp by one row, forward-fill its NaN gaps,
then apply the period-start fixes, the game-end fix and the timeout
fixes in that order.  initwp stands for the value
sportsref.nfl.winProb.initialWinProb(line) computed from the pregame
line by the external win-probability module (the loop recomputes it
each iteration; it is constant across a game). -/
def pbpWPAdjust (rows : List PbpRow) (initwp : Rat) (winner : Winner) :
    Except String WPState :=
  match boundaryFix initwp (zeroSecIdxs rows)
      ⟨ffill (shift1 (rows.map PbpRow.home_wp)),
        diffCol (rows.map PbpRow.home_wp)⟩ with
  | .error e => .error e
  | .ok s₁ =>
    match lastFix (finalWPOf winner) s₁ with
    | .error e => .error e
    | .ok s₂ => timeoutFix (finalWPOf winner) rows.length (timeoutIdxs rows) s₂

instance instDecEqExceptStr {α : Type} [DecidableEq α] : DecidableEq (Except String α) :=
  fun a b =>
    match a, b with
    | .error x, .error y =>
        if h : x = y then .isTrue (by rw [h]) else .isFalse (by intro hc; injection hc; exact h (by assumption))
    | .ok x, .ok y =>
        if h : x = y then .isTrue (by rw [h]) else .isFalse (by intro hc; injection hc; exact h (by assumption))
    | .error _, .ok _ => .isFalse (by intro hc; cases hc)
    | .ok _, .error _ => .isFalse (by intro hc; cases hc)

/-- Sum of a wpa column; pandas sum skips NaN cells. -/
def wpaSum (l : List (Option Rat)) : Rat :=
  (l.filterMap id).sum

/-- A timeout row inserted in front of position t of a game: it starts
no period and, being a stoppage, carries the same raw win probability
as the play before it. -/
def insertedTimeoutRow (rows : List PbpRow) (t : Nat) : PbpRow :=
  { secsElapsed := 1, isTimeout := true,
    home_wp := (rows[t - 1]?).bind PbpRow.home_wp }

def insertTimeoutAt (t : Nat) (rows : List PbpRow) : List PbpRow :=
  rows.take t ++ [insertedTimeoutRow rows t] ++ rows.drop t

/-! Basic facts about cells, column updates and the index selections. -/

theorem cell_set_self {l : List (Option Rat)} {i : Nat} {a : Option Rat}
    (h : i < l.length) : cell (l.set i a) i = a := by
  simp [cell, List.getElem?_set_self h]

theorem cell_set_ne {l : List (Option Rat)} {i j : Nat} {a : Option Rat}
    (h : i ≠ j) : cell (l.set i a) j = cell l j := by
  simp [cell, List.getElem?_set_ne h]

theorem set_cell_same {l : List (Option Rat)} {i : Nat} {a : Option Rat}
    (hlt : i < l.length) (h : cell l i = a) : l.set i a = l := by
  apply List.ext_getElem?
  intro j
  rcases eq_or_ne i j with rfl | hne
  · rw [List.getElem?_set_self hlt, List.getElem?_eq_getElem hlt]
    have h' := h
    rw [cell, List.getElem?_eq_getElem hlt] at h'
    simp at h'
    simp [h']
  · rw [List.getElem?_set_ne hne]

theorem length_shift1 (l : List (Option Rat)) : (shift1 l).length = l.length := by
  simp [shift1]

theorem length_ffillGo (a : Option Rat) (l : List (Option Rat)) :
    (ffillGo a l).length = l.length := by
  induction l generalizing a with
  | nil => rfl
  | cons x xs ih => simp [ffillGo, ih]

theorem length_ffill (l : List (Option Rat)) : (ffill l).length = l.length :=
  length_ffillGo none l

theorem length_diffCol (l : List (Option Rat)) : (diffCol l).length = l.length := by
  simp [diffCol]

theorem mem_zeroSecIdxs {rows : List PbpRow} {i : Nat} :
    i ∈ zeroSecIdxs rows ↔ ∃ r, rows[i]? = some r ∧ r.secsElapsed = 0 := by
  unfold zeroSecIdxs
  rw [List.mem_filter, List.mem_range]
  constructor
  · rintro ⟨hilt, hp⟩
    rcases hr : rows[i]? with _ | r
    · rw [hr] at hp; simp at hp
    · rw [hr] at hp; simp at hp; exact ⟨r, rfl, hp⟩
  · rintro ⟨r, hr, h0⟩
    have hilt : i < rows.length := by
      rcases List.getElem?_eq_some_iff.mp hr with ⟨h, _⟩
      exact h
    refine ⟨hilt, ?_⟩
    rw [hr]
    simp [h0]

theorem mem_timeoutIdxs {rows : List PbpRow} {i : Nat} :
    i ∈ timeoutIdxs rows ↔ ∃ r, rows[i]? = some r ∧ r.isTimeout = true := by
  unfold timeoutIdxs
  rw [List.mem_filter, List.mem_range]
  constructor
  · rintro ⟨hilt, hp⟩
    rcases hr : rows[i]? with _ | r
    · rw [hr] at hp; simp at hp
    · rw [hr] at hp; simp at hp; exact ⟨r, rfl, hp⟩
  · rintro ⟨r, hr, h0⟩
    have hilt : i < rows.length := by
      rcases List.getElem?_eq_some_iff.mp hr with ⟨h, _⟩
      exact h
    refine ⟨hilt, ?_⟩
    rw [hr]
    simp [h0]

theorem zeroSecIdxs_pairwise (rows : List PbpRow) :
    (zeroSecIdxs rows).Pairwise (· < ·) :=
  (List.pairwise_lt_range rows.length).filter _

theorem timeoutIdxs_pairwise (rows : List PbpRow) :
    (timeoutIdxs rows).Pairwise (· < ·) :=
  (List.pairwise_lt_range rows.length).filter _

/-! Behavior of the boundary-fix loop. -/

theorem boundaryFix_lengths {initwp : Rat} {idxs : List Nat} {s s' : WPState}
    (h : boundaryFix initwp idxs s = .ok s') :
    s'.wp.length = s.wp.length ∧ s'.wpa.length = s.wpa.length := by
  induction idxs generalizing s with
  | nil =>
    simp [boundaryFix] at h
    simp [h]
  | cons i rest ih =>
    unfold boundaryFix at h
    rcases hr : ixRead (s.wp.set i (some initwp)) (i + 1) with e | v
    · rw [hr] at h; exact absurd h (by simp)
    · rw [hr] at h
      rcases ih h with ⟨h1, h2⟩
      simp at h1 h2
      exact ⟨h1, h2⟩

theorem boundaryFix_mem_succ_lt {initwp : Rat} {idxs : List Nat} {s s' : WPState}
    (h : boundaryFix initwp idxs s = .ok s') {i : Nat} (hi : i ∈ idxs) :
    i + 1 < s.wp.length := by
  induction idxs generalizing s with
  | nil => cases hi
  | cons j rest ih =>
    unfold boundaryFix at h
    rcases hr : ixRead (s.wp.set j (some initwp)) (j + 1) with e | v
    · rw [hr] at h; exact absurd h (by simp)
    · rw [hr] at h
      rcases List.mem_cons.mp hi with rfl | hi'
      · have hv := hr
        unfold ixRead at hv
        by_cases hlt : i + 1 < (s.wp.set i (some initwp)).length
        · simpa using hlt
        · rw [if_neg hlt] at hv; cases hv
      · have := ih h hi'
        simpa using this

theorem boundaryFix_wp_notmem {initwp : Rat} {idxs : List Nat} {s s' : WPState}
    (h : boundaryFix initwp idxs s = .ok s') {j : Nat} (hj : j ∉ idxs) :
    cell s'.wp j = cell s.wp j := by
  induction idxs generalizing s with
  | nil => simp [boundaryFix] at h; simp [h]
  | cons i rest ih =>
    unfold boundaryFix at h
    rcases hr : ixRead (s.wp.set i (some initwp)) (i + 1) with e | v
    · rw [hr] at h; exact absurd h (by simp)
    · rw [hr] at h
      have hji : i ≠ j := fun he => hj (he ▸ List.mem_cons_self i rest)
      have hjr : j ∉ rest := fun hm => hj (List.mem_cons_of_mem i hm)
      rw [ih h hjr]
      exact cell_set_ne hji

theorem boundaryFix_wpa_notmem {initwp : Rat} {idxs : List Nat} {s s' : WPState}
    (h : boundaryFix initwp idxs s = .ok s') {j : Nat} (hj : j ∉ idxs) :
    cell s'.wpa j = cell s.wpa j := by
  induction idxs generalizing s with
  | nil => simp [boundaryFix] at h; simp [h]
  | cons i rest ih =>
    unfold boundaryFix at h
    rcases hr : ixRead (s.wp.set i (some initwp)) (i + 1) with e | v
    · rw [hr] at h; exact absurd h (by simp)
    · rw [hr] at h
      have hji : i ≠ j := fun he => hj (he ▸ List.mem_cons_self i rest)
      have hjr : j ∉ rest := fun hm => hj (List.mem_cons_of_mem i hm)
      rw [ih h hjr]
      exact cell_set_ne hji

theorem boundaryFix_wp_mem {initwp : Rat} {idxs : List Nat} {s s' : WPState}
    (hsort : idxs.Pairwise (· < ·))
    (h : boundaryFix initwp idxs s = .ok s') {i : Nat} (hi : i ∈ idxs) :
    cell s'.wp i = some initwp := by
  induction idxs generalizing s with
  | nil => cases hi
  | cons j rest ih =>
    unfold boundaryFix at h
    rcases hr : ixRead (s.wp.set j (some initwp)) (j + 1) with e | v
    · rw [hr] at h; exact absurd h (by simp)
    · rw [hr] at h
      rcases List.mem_cons.mp hi with rfl | hi'
      · have hnm : i ∉ rest := fun hm => lt_irrefl i ((List.pairwise_cons.mp hsort).1 i hm)
        rw [boundaryFix_wp_notmem h hnm]
        have hsucc : i + 1 < s.wp.length := by
          have hv := hr
          unfold ixRead at hv
          by_cases hlt : i + 1 < (s.wp.set i (some initwp)).length
          · simpa using hlt
          · rw [if_neg hlt] at hv; cases hv
        exact cell_set_self (by omega)
      · exact ih (List.pairwise_cons.mp hsort).2 h hi'

theorem boundaryFix_wpa_mem {initwp : Rat} {idxs : List Nat} {s s' : WPState}
    (hsort : idxs.Pairwise (· < ·)) (hlen : s.wpa.length = s.wp.length)
    (h : boundaryFix initwp idxs s = .ok s') {i : Nat} (hi : i ∈ idxs) :
    cell s'.wpa i = osub (cell s.wp (i + 1)) (some initwp) := by
  induction idxs generalizing s with
  | nil => cases hi
  | cons j rest ih =>
    unfold boundaryFix at h
    rcases hr : ixRead (s.wp.set j (some initwp)) (j + 1) with e | v
    · rw [hr] at h; exact absurd h (by simp)
    · rw [hr] at h
      rcases List.mem_cons.mp hi with rfl | hi'
      · have hnm : i ∉ rest := fun hm => lt_irrefl i ((List.pairwise_cons.mp hsort).1 i hm)
        rw [boundaryFix_wpa_notmem h hnm]
        have hsucc : i + 1 < s.wp.length := by
          have hv := hr
          unfold ixRead at hv
          by_cases hlt : i + 1 < (s.wp.set i (some initwp)).length
          · simpa using hlt
          · rw [if_neg hlt] at hv; cases hv
        have hveq : v = cell s.wp (i + 1) := by
          have hv := hr
          unfold ixRead at hv
          rw [if_pos (by simpa using hsucc)] at hv
          have hv' : cell (s.wp.set i (some initwp)) (i + 1) = v := by
            injection hv
          rw [← hv', cell_set_ne (by omega)]
        rw [cell_set_self (by omega : i < s.wpa.length), hveq]
      · have hji : j < i := (List.pairwise_cons.mp hsort).1 i hi'
        have := ih (List.pairwise_cons.mp hsort).2 (by simpa using hlen) h hi'
        rw [this, cell_set_ne (by omega)]

/-! Behavior of the game-end fix. -/

theorem lastFix_ok {finalWP : Rat} {s s' : WPState}
    (h : lastFix finalWP s = .ok s') :
    s.wp.length ≠ 0 ∧ s'.wp = s.wp ∧
      s'.wpa = s.wpa.set (s.wp.length - 1)
        (osub (some finalWP) (cell s.wp (s.wp.length - 1))) := by
  unfold lastFix at h
  by_cases hn : s.wp.length = 0
  · rw [if_pos hn] at h; cases h
  · rw [if_neg hn] at h
    rcases hr : ixRead s.wp (s.wp.length - 1) with e | v
    · rw [hr] at h; cases h
    · rw [hr] at h
      have hveq : v = cell s.wp (s.wp.length - 1) := by
        unfold ixRead at hr
        rw [if_pos (by omega)] at hr
        injection hr with hr'
        exact hr'.symm
      injection h with h'
      subst hveq
      exact ⟨hn, by rw [← h'], by rw [← h']⟩

/-! Behavior of the timeout-fix loop. -/

theorem timeoutFix_wp {F : Rat} {n : Nat} {idxs : List Nat} {s s' : WPState}
    (h : timeoutFix F n idxs s = .ok s') : s'.wp = s.wp := by
  induction idxs generalizing s with
  | nil => simp [timeoutFix] at h; simp [h]
  | cons t rest ih =>
    unfold timeoutFix at h
    split at h
    · split at h
      · cases h
      · split at h
        · cases h
        · have := ih h
          simpa using this
    · split at h
      · cases h
      · have := ih h
        simpa using this

theorem timeoutFix_lengths {F : Rat} {n : Nat} {idxs : List Nat} {s s' : WPState}
    (h : timeoutFix F n idxs s = .ok s') : s'.wpa.length = s.wpa.length := by
  induction idxs generalizing s with
  | nil => simp [timeoutFix] at h; simp [h]
  | cons t rest ih =>
    unfold timeoutFix at h
    split at h
    · split at h
      · cases h
      · split at h
        · cases h
        · have := ih h
          simpa using this
    · split at h
      · cases h
      · have := ih h
        simpa using this

theorem timeoutFix_mem_succ_lt {F : Rat} {n : Nat} {idxs : List Nat} {s s' : WPState}
    (h : timeoutFix F n idxs s = .ok s') {t : Nat} (ht : t ∈ idxs) :
    t + 1 < s.wp.length := by
  induction idxs generalizing s with
  | nil => cases ht
  | cons u rest ih =>
    unfold timeoutFix at h
    split at h
    · next hb =>
      split at h
      · cases h
      · next a h2 =>
        split at h
        · cases h
        · next b h1 =>
          rcases List.mem_cons.mp ht with rfl | ht'
          · unfold ixRead at h1
            by_cases hlt : t + 1 < s.wp.length
            · exact hlt
            · rw [if_neg hlt] at h1; cases h1
          · have := ih h ht'
            simpa using this
    · next hb =>
      split at h
      · cases h
      · next b h1 =>
        rcases List.mem_cons.mp ht with rfl | ht'
        · unfold ixRead at h1
          by_cases hlt : t + 1 < s.wp.length
          · exact hlt
          · rw [if_neg hlt] at h1; cases h1
        · have := ih h ht'
          simpa using this

theorem timeoutFix_wpa_untouched {F : Rat} {n : Nat} {idxs : List Nat} {s s' : WPState}
    (h : timeoutFix F n idxs s = .ok s') {j : Nat}
    (hj : ∀ t ∈ idxs, j ≠ t ∧ j ≠ t + 1) :
    cell s'.wpa j = cell s.wpa j := by
  induction idxs generalizing s with
  | nil => simp [timeoutFix] at h; simp [h]
  | cons t rest ih =>
    have hjt := hj t (List.mem_cons_self t rest)
    have hjr : ∀ u ∈ rest, j ≠ u ∧ j ≠ u + 1 := fun u hu => hj u (List.mem_cons_of_mem t hu)
    unfold timeoutFix at h
    split at h
    · split at h
      · cases h
      · split at h
        · cases h
        · rw [ih h hjr, cell_set_ne (fun he => hjt.2 he.symm),
            cell_set_ne (fun he => hjt.1 he.symm)]
    · split at h
      · cases h
      · rw [ih h hjr, cell_set_ne (fun he => hjt.2 he.symm),
          cell_set_ne (fun he => hjt.1 he.symm)]

theorem timeoutFix_wpa_mem_zero {F : Rat} {n : Nat} {idxs : List Nat} {s s' : WPState}
    (hsort : idxs.Pairwise (· < ·)) (hlen : s.wpa.length = s.wp.length)
    (h : timeoutFix F n idxs s = .ok s') {t : Nat} (ht : t ∈ idxs) :
    cell s'.wpa t = some 0 := by
  induction idxs generalizing s with
  | nil => cases ht
  | cons u rest ih =>
    have hrsort := (List.pairwise_cons.mp hsort).2
    have hlt : ∀ u' ∈ rest, u < u' := (List.pairwise_cons.mp hsort).1
    unfold timeoutFix at h
    rcases List.mem_cons.mp ht with rfl | ht'
    · split at h
      · split at h
        · cases h
        · split at h
          · cases h
          · next b h1 =>
            have hsucc : t + 1 < s.wp.length := by
              unfold ixRead at h1
              by_cases hl : t + 1 < s.wp.length
              · exact hl
              · rw [if_neg hl] at h1; cases h1
            have htlt : t < s.wpa.length := by omega
            rw [timeoutFix_wpa_untouched h
              (fun u' hu' => ⟨Nat.ne_of_lt (hlt u' hu'), by
                have := hlt u' hu'; omega⟩)]
            simp only [cell_set_ne (Nat.succ_ne_self t)]
            exact cell_set_self htlt
      · split at h
        · cases h
        · next b h1 =>
          have hsucc : t + 1 < s.wp.length := by
            unfold ixRead at h1
            by_cases hl : t + 1 < s.wp.length
            · exact hl
            · rw [if_neg hl] at h1; cases h1
          have htlt : t < s.wpa.length := by omega
          rw [timeoutFix_wpa_untouched h
            (fun u' hu' => ⟨Nat.ne_of_lt (hlt u' hu'), by
              have := hlt u' hu'; omega⟩)]
          simp only [cell_set_ne (Nat.succ_ne_self t)]
          exact cell_set_self htlt
    · split at h
      · split at h
        · cases h
        · split at h
          · cases h
          · exact ih hrsort (by simpa using hlen) h ht'
      · split at h
        · cases h
        · exact ih hrsort (by simpa using hlen) h ht'

theorem timeoutFix_wpa_mem_succ {F : Rat} {n : Nat} {idxs : List Nat} {s s' : WPState}
    (hsort : idxs.Pairwise (· < ·)) (hn : n = s.wp.length)
    (hlen : s.wpa.length = s.wp.length)
    (h : timeoutFix F n idxs s = .ok s') {t : Nat} (ht : t ∈ idxs)
    (ht1 : t + 1 ∉ idxs) :
    cell s'.wpa (t + 1) =
      if t + 2 < n then osub (cell s.wp (t + 2)) (cell s.wp (t + 1))
      else osub (some F) (cell s.wp (t + 1)) := by
  induction idxs generalizing s with
  | nil => cases ht
  | cons u rest ih =>
    have hrsort := (List.pairwise_cons.mp hsort).2
    have hlt : ∀ u' ∈ rest, u < u' := (List.pairwise_cons.mp hsort).1
    have ht1r : t + 1 ∉ rest := fun hm => ht1 (List.mem_cons_of_mem u hm)
    unfold timeoutFix at h
    rcases List.mem_cons.mp ht with rfl | ht'
    · have huntouched : ∀ u' ∈ rest, t + 1 ≠ u' ∧ t + 1 ≠ u' + 1 := by
        intro u' hu'
        refine ⟨fun he => ht1 (he ▸ List.mem_cons_of_mem t hu'), ?_⟩
        have := hlt u' hu'
        omega
      split at h
      · next hb =>
        split at h
        · cases h
        · next a h2 =>
          split at h
          · cases h
          · next b h1 =>
            have hsucc : t + 1 < s.wp.length := by
              unfold ixRead at h1
              by_cases hl : t + 1 < s.wp.length
              · exact hl
              · rw [if_neg hl] at h1; cases h1
            have ha : a = cell s.wp (t + 2) := by
              unfold ixRead at h2
              rw [if_pos (by omega)] at h2
              injection h2 with h2'
              exact h2'.symm
            have hb' : b = cell s.wp (t + 1) := by
              unfold ixRead at h1
              rw [if_pos hsucc] at h1
              injection h1 with h1'
              exact h1'.symm
            rw [timeoutFix_wpa_untouched h huntouched, if_pos hb,
              cell_set_self (by rw [List.length_set]; omega), ha, hb']
      · next hb =>
        split at h
        · cases h
        · next b h1 =>
          have hsucc : t + 1 < s.wp.length := by
            unfold ixRead at h1
            by_cases hl : t + 1 < s.wp.length
            · exact hl
            · rw [if_neg hl] at h1; cases h1
          have hb' : b = cell s.wp (t + 1) := by
            unfold ixRead at h1
            rw [if_pos hsucc] at h1
            injection h1 with h1'
            exact h1'.symm
          rw [timeoutFix_wpa_untouched h huntouched, if_neg hb,
            cell_set_self (by rw [List.length_set]; omega), hb']
    · have hut : u < t := hlt t ht'
      split at h
      · split at h
        · cases h
        · split at h
          · cases h
          · have := ih hrsort (by simpa using hn) (by simpa using hlen) h ht' ht1r
            simpa using this
      · split at h
        · cases h
        · have := ih hrsort (by simpa using hn) (by simpa using hlen) h ht' ht1r
          simpa using this

theorem timeoutFix_last_inv {F : Rat} {n : Nat} {idxs : List Nat} {s s' : WPState}
    (hn : n = s.wp.length) (hlen : s.wpa.length = n) (hpos : 0 < n)
    (hinv : cell s.wpa (n - 1) = osub (some F) (cell s.wp (n - 1)))
    (h : timeoutFix F n idxs s = .ok s') :
    cell s'.wpa (n - 1) = osub (some F) (cell s'.wp (n - 1)) := by
  induction idxs generalizing s with
  | nil =>
    simp [timeoutFix] at h
    rw [h] at hinv
    exact hinv
  | cons t rest ih =>
    unfold timeoutFix at h
    split at h
    · next hb =>
      split at h
      · cases h
      · next a h2 =>
        split at h
        · cases h
        · next b h1 =>
          refine ih (by simpa using hn) (by simpa using hlen) ?_ h
          have hne1 : t + 1 ≠ n - 1 := by omega
          have hne0 : t ≠ n - 1 := by omega
          show cell ((s.wpa.set t (some 0)).set (t + 1) (osub a b)) (n - 1) =
            osub (some F) (cell s.wp (n - 1))
          rw [cell_set_ne hne1, cell_set_ne hne0]
          exact hinv
    · next hb =>
      split at h
      · cases h
      · next b h1 =>
        have hsucc : t + 1 < s.wp.length := by
          unfold ixRead at h1
          by_cases hl : t + 1 < s.wp.length
          · exact hl
          · rw [if_neg hl] at h1; cases h1
        have hteq : t + 1 = n - 1 := by omega
        have hb' : b = cell s.wp (t + 1) := by
          unfold ixRead at h1
          rw [if_pos hsucc] at h1
          injection h1 with h1'
          exact h1'.symm
        refine ih (by simpa using hn) (by simpa using hlen) ?_ h
        show cell ((s.wpa.set t (some 0)).set (t + 1) (osub (some F) b)) (n - 1) =
          osub (some F) (cell s.wp (n - 1))
        rw [← hteq, cell_set_self (by rw [List.length_set]; omega), hb']

/-- When the wpa column already carries the values the timeout loop
would write, the loop leaves the state unchanged. -/
theorem timeoutFix_fixed {F : Rat} {n : Nat} {idxs : List Nat} {s : WPState}
    (hn : n = s.wp.length) (hlen : s.wpa.length = n)
    (hcond : ∀ t ∈ idxs, t + 1 < n ∧ cell s.wpa t = some 0 ∧
      cell s.wpa (t + 1) =
        (if t + 2 < n then osub (cell s.wp (t + 2)) (cell s.wp (t + 1))
         else osub (some F) (cell s.wp (t + 1)))) :
    timeoutFix F n idxs s = .ok s := by
  induction idxs with
  | nil => rfl
  | cons t rest ih =>
    rcases hcond t (List.mem_cons_self t rest) with ⟨ht1, hz, hv⟩
    have hset0 : s.wpa.set t (some 0) = s.wpa := set_cell_same (by omega) hz
    unfold timeoutFix
    by_cases hb : t + 2 < n
    · rw [if_pos hb]
      have h2 : ixRead s.wp (t + 2) = .ok (cell s.wp (t + 2)) := by
        unfold ixRead
        rw [if_pos (by omega)]
      have h1 : ixRead s.wp (t + 1) = .ok (cell s.wp (t + 1)) := by
        unfold ixRead
        rw [if_pos (by omega)]
      rw [h2, h1]
      have hset1 : s.wpa.set (t + 1) (osub (cell s.wp (t + 2)) (cell s.wp (t + 1))) = s.wpa := by
        refine set_cell_same (by omega) ?_
        rw [hv, if_pos hb]
      show timeoutFix F n rest
        ⟨s.wp, (s.wpa.set t (some 0)).set (t + 1)
          (osub (cell s.wp (t + 2)) (cell s.wp (t + 1)))⟩ = Except.ok s
      rw [hset0, hset1]
      exact ih (fun u hu => hcond u (List.mem_cons_of_mem t hu))
    · rw [if_neg hb]
      have h1 : ixRead s.wp (t + 1) = .ok (cell s.wp (t + 1)) := by
        unfold ixRead
        rw [if_pos (by omega)]
      rw [h1]
      have hset1 : s.wpa.set (t + 1) (osub (some F) (cell s.wp (t + 1))) = s.wpa := by
        refine set_cell_same (by omega) ?_
        rw [hv, if_neg hb]
      show timeoutFix F n rest
        ⟨s.wp, (s.wpa.set t (some 0)).set (t + 1)
          (osub (some F) (cell s.wp (t + 1)))⟩ = Except.ok s
      rw [hset0, hset1]
      exact ih (fun u hu => hcond u (List.mem_cons_of_mem t hu))

/-! Cell-level descriptions of the diff, shift and forward-fill stages. -/

theorem cell_map_home_wp (rows : List PbpRow) (i : Nat) :
    cell (rows.map PbpRow.home_wp) i = (rows[i]?).bind PbpRow.home_wp := by
  rw [cell, List.getElem?_map]
  cases rows[i]? with
  | none => rfl
  | some r => cases r.home_wp <;> rfl

theorem ffillGo_all_some {l : List (Option Rat)} (h : ∀ x ∈ l, x.isSome)
    (a : Option Rat) : ffillGo a l = l := by
  induction l generalizing a with
  | nil => rfl
  | cons x xs ih =>
    rcases x with _ | q
    · exact absurd (h none (List.mem_cons_self _ _)) (by simp)
    · simp only [ffillGo]
      rw [ih (fun y hy => h y (List.mem_cons_of_mem _ hy))]

theorem ffill_shift1_all_some {l : List (Option Rat)} (h : ∀ x ∈ l, x.isSome) :
    ffill (shift1 l) = shift1 l := by
  cases l with
  | nil => rfl
  | cons x xs =>
    show ffillGo none ((none :: x :: xs).dropLast) = (none :: x :: xs).dropLast
    rw [List.dropLast_cons₂]
    show (none : Option Rat) :: ffillGo none ((x :: xs).dropLast) = _
    rw [ffillGo_all_some (fun y hy => h y (List.mem_of_mem_dropLast hy)) none]

theorem cell_shift1_succ {l : List (Option Rat)} {j : Nat} (h : j + 1 < l.length) :
    cell (shift1 l) (j + 1) = cell l j := by
  rw [cell, cell, shift1, List.getElem?_dropLast]
  have hlen : (none :: l).length - 1 = l.length := by simp
  rw [hlen, if_pos h, List.getElem?_cons_succ]

theorem cell_cons_zero (x : Option Rat) (l : List (Option Rat)) :
    cell (x :: l) 0 = x := by
  rw [cell, List.getElem?_cons_zero]
  rfl

theorem cell_cons_succ (x : Option Rat) (l : List (Option Rat)) (k : Nat) :
    cell (x :: l) (k + 1) = cell l k := by
  rw [cell, cell, List.getElem?_cons_succ]

/-- The forward fill leaves a non-NaN cell unchanged, whatever the seed. -/
theorem cell_ffillGo_of_isSome {l : List (Option Rat)} {j : Nat} (a : Option Rat)
    (h : (cell l j).isSome) : cell (ffillGo a l) j = cell l j := by
  induction l generalizing a j with
  | nil => simp [cell] at h
  | cons x xs ih =>
    cases j with
    | zero =>
      rcases x with _ | q
      · rw [cell_cons_zero] at h
        simp at h
      · show cell (some q :: ffillGo (some q) xs) 0 = cell (some q :: xs) 0
        rw [cell_cons_zero, cell_cons_zero]
    | succ k =>
      rw [cell_cons_succ] at h
      rw [cell_cons_succ x xs k]
      rcases x with _ | q
      · show cell (a :: ffillGo a xs) (k + 1) = cell xs k
        rw [cell_cons_succ]
        exact ih a h
      · show cell (some q :: ffillGo (some q) xs) (k + 1) = cell xs k
        rw [cell_cons_succ]
        exact ih (some q) h

theorem cell_ffill_of_isSome {l : List (Option Rat)} {j : Nat}
    (h : (cell l j).isSome) : cell (ffill l) j = cell l j :=
  cell_ffillGo_of_isSome none h

theorem cell_diffCol {l : List (Option Rat)} {j : Nat} (h : j < l.length) :
    cell (diffCol l) j =
      if j = 0 then none else osub (cell l j) (cell l (j - 1)) := by
  rw [cell, diffCol, List.getElem?_map, List.getElem?_range h]
  rfl

theorem zeroSecIdxs_eq_single {rows : List PbpRow} (hpos : 0 < rows.length)
    (hsec : ∀ i r, rows[i]? = some r → (r.secsElapsed = 0 ↔ i = 0)) :
    zeroSecIdxs rows = [0] := by
  obtain ⟨m, hm⟩ : ∃ m, rows.length = m + 1 := ⟨rows.length - 1, by omega⟩
  unfold zeroSecIdxs
  rw [hm, List.range_succ_eq_map, List.filter_cons]
  have h0 : rows[0]? = some (rows.get ⟨0, hpos⟩) := by
    rw [List.getElem?_eq_getElem hpos]
    rfl
  have hp0 : ((rows[0]?).map (fun r => r.secsElapsed == 0)).getD false = true := by
    rw [h0]
    simp only [Option.map, Option.getD_some, beq_iff_eq]
    exact (hsec 0 _ h0).mpr rfl
  rw [if_pos hp0]
  have hrest : ((List.range m).map Nat.succ).filter
      (fun i => ((rows[i]?).map (fun r => r.secsElapsed == 0)).getD false) = [] := by
    rw [List.filter_eq_nil_iff]
    intro a ha
    rcases List.mem_map.mp ha with ⟨i, _, rfl⟩
    rcases hr : rows[i.succ]? with _ | r
    · simp [hr]
    · have := hsec i.succ r hr
      simp [hr, this]
  rw [hrest]

/-! Telescoping sums. -/

theorem sum_range_sub (w : Nat → Rat) (m : Nat) :
    ((List.range m).map fun i => w (i + 1) - w i).sum = w m - w 0 := by
  induction m with
  | zero => simp
  | succ k ih =>
    rw [List.range_succ, List.map_append, List.sum_append, ih]
    simp only [List.map_cons, List.map_nil, List.sum_cons, List.sum_nil]
    ring

theorem sum_piecewise (F initwp : Rat) (w : Nat → Rat) (m : Nat) :
    ((List.range (m + 2)).map fun j =>
      if j = 0 then w 0 - initwp
      else if j = m + 1 then F - w m
      else w j - w (j - 1)).sum = F - initwp := by
  have hsplit : List.range (m + 2) = 0 :: ((List.range m).map Nat.succ ++ [m + 1]) := by
    rw [show m + 2 = (m + 1) + 1 from rfl, List.range_succ, List.range_succ_eq_map]
    rfl
  rw [hsplit]
  simp only [List.map_cons, List.map_append, List.map_map, List.sum_cons,
    List.sum_append, List.map_nil, List.sum_nil]
  have hmid : (List.range m).map
      ((fun j => if j = 0 then w 0 - initwp
        else if j = m + 1 then F - w m else w j - w (j - 1)) ∘ Nat.succ) =
      (List.range m).map fun i => w (i + 1) - w i := by
    refine List.map_congr_left (fun i hi => ?_)
    have him : i < m := List.mem_range.mp hi
    simp only [Function.comp]
    rw [if_neg (by omega), if_neg (by omega)]
    simp
  rw [hmid, sum_range_sub]
  simp [Nat.succ_ne_zero]

/-- Two columns of the same length agreeing cell by cell are equal. -/
theorem ext_cells {l₁ l₂ : List (Option Rat)} (hlen : l₁.length = l₂.length)
    (h : ∀ j < l₁.length, cell l₁ j = cell l₂ j) : l₁ = l₂ := by
  apply List.ext_getElem?
  intro j
  by_cases hj : j < l₁.length
  · have h₁ : l₁[j]? = some l₁[j] := List.getElem?_eq_getElem hj
    have h₂ : l₂[j]? = some l₂[j] := List.getElem?_eq_getElem (hlen ▸ hj)
    have hc := h j hj
    rw [cell, cell, h₁, h₂] at hc
    simp only [Option.getD_some] at hc
    rw [h₁, h₂, hc]
  · rw [List.getElem?_eq_none (by omega), List.getElem?_eq_none (by omega)]

theorem cell_map_range {f : Nat → Option Rat} {j n : Nat} (h : j < n) :
    cell ((List.range n).map f) j = f j := by
  rw [cell, List.getElem?_map, List.getElem?_range h]
  rfl

theorem filterMap_id_map_some (f : Nat → Rat) (l : List Nat) :
    (l.map (fun j => some (f j))).filterMap id = l.map f := by
  induction l with
  | nil => rfl
  | cons x xs ih => simp [ih]

/-- The telescoping behavior of the whole correction pass: for a game of
at least two rows whose only zero-second row is the first, whose raw win
probabilities are all present, and whose timeout rows are interior and
carry the same raw win probability as their predecessors, the pass
succeeds, seeds the corrected column with initwp at index 0, and the
wpa column sums to the terminal value minus initwp. -/
theorem adjust_telescope {rows : List PbpRow} (initwp : Rat) (winner : Winner)
    (hn2 : 2 ≤ rows.length)
    (hsec : ∀ (i : Nat) (r : PbpRow), rows[i]? = some r → (r.secsElapsed = 0 ↔ i = 0))
    (hwp : ∀ (i : Nat) (r : PbpRow), rows[i]? = some r → r.home_wp.isSome)
    (hto : ∀ (t : Nat) (r : PbpRow), rows[t]? = some r → r.isTimeout = true →
      1 ≤ t ∧ t + 2 ≤ rows.length ∧ r.home_wp = (rows[t - 1]?).bind PbpRow.home_wp) :
    ∃ s, pbpWPAdjust rows initwp winner = .ok s ∧
      cell s.wp 0 = some initwp ∧
      wpaSum s.wpa = finalWPOf winner - initwp := by
  obtain ⟨m, hm⟩ : ∃ m, rows.length = m + 2 := ⟨rows.length - 2, by omega⟩
  set F := finalWPOf winner with hF
  set orig := rows.map PbpRow.home_wp with horig
  set w : Nat → Rat := fun i => ((rows[i]?).bind PbpRow.home_wp).getD 0 with hwdef
  have horiglen : orig.length = m + 2 := by rw [horig, List.length_map, hm]
  have hcell : ∀ i < m + 2, cell orig i = some (w i) := by
    intro i hi
    obtain ⟨r, hr⟩ : ∃ r, rows[i]? = some r := by
      have hlt : i < rows.length := by omega
      exact ⟨rows.get ⟨i, hlt⟩, by rw [List.getElem?_eq_getElem hlt]; rfl⟩
    have hs := hwp i r hr
    rcases hq : r.home_wp with _ | q
    · rw [hq] at hs; cases hs
    · rw [horig, cell_map_home_wp, hr, hwdef]
      simp [hr, hq]
  have hallsome : ∀ x ∈ orig, x.isSome := by
    intro x hx
    rcases List.mem_map.mp hx with ⟨r, hr, rfl⟩
    rcases List.mem_iff_getElem?.mp hr with ⟨i, hi⟩
    exact hwp i r hi
  have hwp0 : ffill (shift1 orig) = shift1 orig := ffill_shift1_all_some hallsome
  have hzs : zeroSecIdxs rows = [0] := zeroSecIdxs_eq_single (by omega) hsec
  have hshiftlen : (shift1 orig).length = m + 2 := by rw [length_shift1, horiglen]
  have hdifflen : (diffCol orig).length = m + 2 := by rw [length_diffCol, horiglen]
  -- the state after the boundary fix of the single zero-second row
  set s₁ : WPState :=
    ⟨(shift1 orig).set 0 (some initwp), (diffCol orig).set 0 (some (w 0 - initwp))⟩ with hs₁
  have hbv : ixRead ((shift1 orig).set 0 (some initwp)) 1 = .ok (some (w 0)) := by
    unfold ixRead
    rw [if_pos (by rw [List.length_set, hshiftlen]; omega)]
    rw [cell_set_ne (by omega), cell_shift1_succ (by omega), hcell 0 (by omega)]
  have hbf : boundaryFix initwp [0] ⟨ffill (shift1 orig), diffCol orig⟩ = .ok s₁ := by
    unfold boundaryFix
    rw [hwp0, hbv]
    rfl
  have hlen₁wp : s₁.wp.length = m + 2 := by
    rw [hs₁]
    show ((shift1 orig).set 0 (some initwp)).length = m + 2
    rw [List.length_set, hshiftlen]
  have hlen₁wpa : s₁.wpa.length = m + 2 := by
    rw [hs₁]
    show ((diffCol orig).set 0 (some (w 0 - initwp))).length = m + 2
    rw [List.length_set, hdifflen]
  have hcellwp : ∀ j, 1 ≤ j → j < m + 2 → cell s₁.wp j = some (w (j - 1)) := by
    intro j h1 h2
    rw [hs₁]
    show cell ((shift1 orig).set 0 (some initwp)) j = _
    rw [cell_set_ne (by omega)]
    obtain ⟨k, rfl⟩ : ∃ k, j = k + 1 := ⟨j - 1, by omega⟩
    rw [cell_shift1_succ (by omega), hcell k (by omega)]
    simp
  -- the state after the game-end fix
  set s₂ : WPState :=
    ⟨s₁.wp, s₁.wpa.set (m + 1) (some (F - w m))⟩ with hs₂
  have hlf : lastFix F s₁ = .ok s₂ := by
    unfold lastFix
    rw [if_neg (by omega)]
    have hread : ixRead s₁.wp (s₁.wp.length - 1) = .ok (some (w m)) := by
      unfold ixRead
      rw [if_pos (by omega)]
      rw [hlen₁wp]
      show Except.ok (cell s₁.wp (m + 2 - 1)) = _
      rw [show m + 2 - 1 = m + 1 from rfl, hcellwp (m + 1) (by omega) (by omega)]
      rfl
    rw [hread, hlen₁wp]
    rfl
  have hlen₂wp : s₂.wp.length = m + 2 := hlen₁wp
  have hlen₂wpa : s₂.wpa.length = m + 2 := by
    rw [hs₂]
    show (s₁.wpa.set (m + 1) (some (F - w m))).length = m + 2
    rw [List.length_set, hlen₁wpa]
  have hcellwp₂ : ∀ j, 1 ≤ j → j < m + 2 → cell s₂.wp j = some (w (j - 1)) :=
    fun j h1 h2 => hcellwp j h1 h2
  have hE : ∀ j < m + 2, cell s₂.wpa j =
      some (if j = 0 then w 0 - initwp
        else if j = m + 1 then F - w m else w j - w (j - 1)) := by
    intro j hj
    have hm1lt : m + 1 < s₁.wpa.length := by omega
    rw [hs₂]
    show cell (s₁.wpa.set (m + 1) (some (F - w m))) j = _
    by_cases hj1 : j = m + 1
    · subst hj1
      rw [cell_set_self hm1lt, if_neg (by omega), if_pos rfl]
    · rw [cell_set_ne (Ne.symm hj1)]
      rw [hs₁]
      show cell ((diffCol orig).set 0 (some (w 0 - initwp))) j = _
      by_cases hj0 : j = 0
      · subst hj0
        rw [cell_set_self (by rw [hdifflen]; omega), if_pos rfl]
      · rw [cell_set_ne (Ne.symm hj0), cell_diffCol (by rw [horiglen]; omega),
          if_neg hj0, if_neg hj0, if_neg hj1,
          hcell j (by omega), hcell (j - 1) (by omega)]
        rfl
  have htf : timeoutFix F rows.length (timeoutIdxs rows) s₂ = .ok s₂ := by
    rw [hm]
    refine timeoutFix_fixed (by omega) (by omega) ?_
    intro t ht
    rcases mem_timeoutIdxs.mp ht with ⟨r, hr, hrT⟩
    rcases hto t r hr hrT with ⟨ht1, ht2, hweq⟩
    rw [hm] at ht2
    have hwt : w t = w (t - 1) := by
      rw [hwdef]
      show ((rows[t]?).bind PbpRow.home_wp).getD 0 =
        ((rows[t - 1]?).bind PbpRow.home_wp).getD 0
      rw [hr]
      show (r.home_wp).getD 0 = _
      rw [hweq]
    refine ⟨by omega, ?_, ?_⟩
    · rw [hE t (by omega), if_neg (by omega), if_neg (by omega), hwt]
      simp
    · by_cases hb : t + 2 < m + 2
      · rw [if_pos hb, hE (t + 1) (by omega), if_neg (by omega), if_neg (by omega),
          hcellwp₂ (t + 2) (by omega) (by omega), hcellwp₂ (t + 1) (by omega) (by omega)]
        show some (w (t + 1) - w (t + 1 - 1)) = osub (some (w (t + 2 - 1))) (some (w (t + 1 - 1)))
        rw [show t + 1 - 1 = t from rfl, show t + 2 - 1 = t + 1 from rfl]
        rfl
      · have hteq : t + 1 = m + 1 := by omega
        rw [if_neg hb, hE (t + 1) (by omega), if_neg (by omega), if_pos hteq,
          hcellwp₂ (t + 1) (by omega) (by omega)]
        show some (F - w m) = osub (some F) (some (w (t + 1 - 1)))
        rw [show t + 1 - 1 = t from rfl, show t = m by omega]
        rfl
  refine ⟨s₂, ?_, ?_, ?_⟩
  · unfold pbpWPAdjust
    rw [hzs, ← horig, hbf]
    show (match lastFix (finalWPOf winner) s₁ with
      | .error e => Except.error e
      | .ok s₂' => timeoutFix (finalWPOf winner) rows.length (timeoutIdxs rows) s₂') = _
    rw [← hF, hlf]
    exact htf
  · rw [hs₂]
    show cell ((shift1 orig).set 0 (some initwp)) 0 = some initwp
    exact cell_set_self (by rw [hshiftlen]; omega)
  · have hEq : s₂.wpa = (List.range (m + 2)).map (fun j =>
        some (if j = 0 then w 0 - initwp
          else if j = m + 1 then F - w m else w j - w (j - 1))) := by
      refine ext_cells ?_ ?_
      · rw [hlen₂wpa, List.length_map, List.length_range]
      · intro j hj
        rw [hlen₂wpa] at hj
        rw [hE j hj, cell_map_range hj]
    rw [hEq]
    unfold wpaSum
    rw [filterMap_id_map_some]
    exact sum_piecewise F initwp w m

/-! Facts about the whole pass, stated through its three stages. -/

theorem pbpWPAdjust_split {rows : List PbpRow} {initwp : Rat} {winner : Winner}
    {s : WPState} (h : pbpWPAdjust rows initwp winner = .ok s) :
    ∃ s₁ s₂, boundaryFix initwp (zeroSecIdxs rows)
        ⟨ffill (shift1 (rows.map PbpRow.home_wp)),
          diffCol (rows.map PbpRow.home_wp)⟩ = .ok s₁ ∧
      lastFix (finalWPOf winner) s₁ = .ok s₂ ∧
      timeoutFix (finalWPOf winner) rows.length (timeoutIdxs rows) s₂ = .ok s := by
  unfold pbpWPAdjust at h
  split at h
  · cases h
  · next s₁ h₁ =>
    split at h
    · cases h
    · next s₂ h₂ => exact ⟨s₁, s₂, h₁, h₂, h⟩

/-- Corrected win probability at every zero-second row is the initial
win probability, whatever else the pass does. -/
theorem pipeline_wp_boundary {rows : List PbpRow} {initwp : Rat} {winner : Winner}
    {s : WPState} (h : pbpWPAdjust rows initwp winner = .ok s) {i : Nat}
    (hi : i ∈ zeroSecIdxs rows) : cell s.wp i = some initwp := by
  rcases pbpWPAdjust_split h with ⟨s₁, s₂, h₁, h₂, h₃⟩
  rw [timeoutFix_wp h₃, (lastFix_ok h₂).2.1]
  exact boundaryFix_wp_mem (zeroSecIdxs_pairwise rows) h₁ hi

/-- The wpa written at a zero-second row reads the lagged forward-filled
column at the following index, provided the timeout pass does not later
overwrite that entry. -/
theorem pipeline_wpa_boundary {rows : List PbpRow} {initwp : Rat} {winner : Winner}
    {s : WPState} (h : pbpWPAdjust rows initwp winner = .ok s) {i : Nat}
    (hi : i ∈ zeroSecIdxs rows)
    (hnt : ∀ t ∈ timeoutIdxs rows, i ≠ t ∧ i ≠ t + 1) :
    cell s.wpa i =
      osub (cell (ffill (shift1 (rows.map PbpRow.home_wp))) (i + 1)) (some initwp) := by
  rcases pbpWPAdjust_split h with ⟨s₁, s₂, h₁, h₂, h₃⟩
  have hn : (ffill (shift1 (rows.map PbpRow.home_wp))).length = rows.length := by
    rw [length_ffill, length_shift1, List.length_map]
  have hsucc : i + 1 < rows.length := by
    have := boundaryFix_mem_succ_lt h₁ hi
    rw [show (WPState.mk (ffill (shift1 (rows.map PbpRow.home_wp)))
      (diffCol (rows.map PbpRow.home_wp))).wp =
        ffill (shift1 (rows.map PbpRow.home_wp)) from rfl, hn] at this
    exact this
  have hlen₁ : s₁.wp.length = rows.length := by
    rw [(boundaryFix_lengths h₁).1]
    exact hn
  rw [timeoutFix_wpa_untouched h₃ hnt, (lastFix_ok h₂).2.2,
    cell_set_ne (by rw [hlen₁]; omega)]
  exact boundaryFix_wpa_mem (zeroSecIdxs_pairwise rows)
    (by rw [length_diffCol, length_ffill, length_shift1]) h₁ hi

/-- The pass never writes the corrected win-probability column outside
the zero-second rows: elsewhere it keeps the lagged forward-filled
value. -/
theorem pipeline_wp_notmem {rows : List PbpRow} {initwp : Rat} {winner : Winner}
    {s : WPState} (h : pbpWPAdjust rows initwp winner = .ok s) {j : Nat}
    (hj : j ∉ zeroSecIdxs rows) :
    cell s.wp j = cell (ffill (shift1 (rows.map PbpRow.home_wp))) j := by
  rcases pbpWPAdjust_split h with ⟨s₁, s₂, h₁, h₂, h₃⟩
  rw [timeoutFix_wp h₃, (lastFix_ok h₂).2.1]
  exact boundaryFix_wp_notmem h₁ hj

/-- At the last index the final wpa is the terminal value minus the
corrected win probability recorded there; the corrected column itself is
not forced to the terminal value. -/
theorem pipeline_last {rows : List PbpRow} {initwp : Rat} {winner : Winner}
    {s : WPState} (h : pbpWPAdjust rows initwp winner = .ok s)
    (hne : rows ≠ []) :
    cell s.wpa (rows.length - 1) =
      osub (some (finalWPOf winner)) (cell s.wp (rows.length - 1)) := by
  rcases pbpWPAdjust_split h with ⟨s₁, s₂, h₁, h₂, h₃⟩
  have hn0 : 0 < rows.length := List.length_pos.mpr hne
  have hlen₁wp : s₁.wp.length = rows.length := by
    rw [(boundaryFix_lengths h₁).1]
    show (ffill (shift1 (rows.map PbpRow.home_wp))).length = rows.length
    rw [length_ffill, length_shift1, List.length_map]
  have hlen₁wpa : s₁.wpa.length = rows.length := by
    rw [(boundaryFix_lengths h₁).2]
    show (diffCol (rows.map PbpRow.home_wp)).length = rows.length
    rw [length_diffCol, List.length_map]
  rcases lastFix_ok h₂ with ⟨hne₁, hwp₂, hwpa₂⟩
  have hinv : cell s₂.wpa (rows.length - 1) =
      osub (some (finalWPOf winner)) (cell s₂.wp (rows.length - 1)) := by
    rw [hwpa₂, hwp₂, hlen₁wp, cell_set_self (by rw [hlen₁wpa]; omega)]
  exact timeoutFix_last_inv (by rw [hwp₂, hlen₁wp]) (by rw [hwpa₂, List.length_set, hlen₁wpa])
    hn0 hinv h₃

/-- The timeout pass zeroes the wpa entry of every timeout row. -/
theorem pipeline_timeout_zero {rows : List PbpRow} {initwp : Rat} {winner : Winner}
    {s : WPState} (h : pbpWPAdjust rows initwp winner = .ok s) {t : Nat}
    (ht : t ∈ timeoutIdxs rows) : cell s.wpa t = some 0 := by
  rcases pbpWPAdjust_split h with ⟨s₁, s₂, h₁, h₂, h₃⟩
  have hlen₁wp : s₁.wp.length = rows.length := by
    rw [(boundaryFix_lengths h₁).1]
    show (ffill (shift1 (rows.map PbpRow.home_wp))).length = rows.length
    rw [length_ffill, length_shift1, List.length_map]
  have hlen₁wpa : s₁.wpa.length = rows.length := by
    rw [(boundaryFix_lengths h₁).2]
    show (diffCol (rows.map PbpRow.home_wp)).length = rows.length
    rw [length_diffCol, List.length_map]
  rcases lastFix_ok h₂ with ⟨hne₁, hwp₂, hwpa₂⟩
  refine timeoutFix_wpa_mem_zero (timeoutIdxs_pairwise rows) ?_ h₃ ht
  rw [hwpa₂, List.length_set, hwp₂, hlen₁wp, hlen₁wpa]

/-- The wpa entry following a timeout row (that is not itself followed
by another timeout) is reassigned from the corrected win-probability
column: the difference of the next two entries when index t+2 exists,
the terminal value minus the next entry otherwise. -/
theorem pipeline_timeout_succ {rows : List PbpRow} {initwp : Rat} {winner : Winner}
    {s : WPState} (h : pbpWPAdjust rows initwp winner = .ok s) {t : Nat}
    (ht : t ∈ timeoutIdxs rows) (ht1 : t + 1 ∉ timeoutIdxs rows) :
    cell s.wpa (t + 1) =
      if t + 2 < rows.length then osub (cell s.wp (t + 2)) (cell s.wp (t + 1))
      else osub (some (finalWPOf winner)) (cell s.wp (t + 1)) := by
  rcases pbpWPAdjust_split h with ⟨s₁, s₂, h₁, h₂, h₃⟩
  have hlen₁wp : s₁.wp.length = rows.length := by
    rw [(boundaryFix_lengths h₁).1]
    show (ffill (shift1 (rows.map PbpRow.home_wp))).length = rows.length
    rw [length_ffill, length_shift1, List.length_map]
  have hlen₁wpa : s₁.wpa.length = rows.length := by
    rw [(boundaryFix_lengths h₁).2]
    show (diffCol (rows.map PbpRow.home_wp)).length = rows.length
    rw [length_diffCol, List.length_map]
  rcases lastFix_ok h₂ with ⟨hne₁, hwp₂, hwpa₂⟩
  have hs : cell s.wpa (t + 1) =
      if t + 2 < rows.length then osub (cell s₂.wp (t + 2)) (cell s₂.wp (t + 1))
      else osub (some (finalWPOf winner)) (cell s₂.wp (t + 1)) := by
    refine timeoutFix_wpa_mem_succ (timeoutIdxs_pairwise rows) ?_ ?_ h₃ ht ht1
    · rw [hwp₂, hlen₁wp]
    · rw [hwpa₂, List.length_set, hwp₂, hlen₁wp, hlen₁wpa]
  rw [hs, timeoutFix_wp h₃]

/-- A timeout index has a successor index in the frame: the loop body
reads df.ix[to+1, home_wp], which raises on a trailing timeout. -/
theorem pipeline_timeout_succ_lt {rows : List PbpRow} {initwp : Rat} {winner : Winner}
    {s : WPState} (h : pbpWPAdjust rows initwp winner = .ok s) {t : Nat}
    (ht : t ∈ timeoutIdxs rows) : t + 1 < rows.length := by
  rcases pbpWPAdjust_split h with ⟨s₁, s₂, h₁, h₂, h₃⟩
  have hlen₁wp : s₁.wp.length = rows.length := by
    rw [(boundaryFix_lengths h₁).1]
    show (ffill (shift1 (rows.map PbpRow.home_wp))).length = rows.length
    rw [length_ffill, length_shift1, List.length_map]
  rcases lastFix_ok h₂ with ⟨hne₁, hwp₂, hwpa₂⟩
  have hlt := timeoutFix_mem_succ_lt h₃ ht
  rw [hwp₂, hlen₁wp] at hlt
  exact hlt

/-- The timeout reassignment in terms of the raw model series: because
the loop of lines 332-338 reads the home_wp column after it was lagged
by one row at lines 310-312, the wpa entry following a timeout row
(clear of period boundaries, with the raw win probabilities present)
is rawWP[t+1] minus rawWP[t] when index t+2 exists and the terminal
value minus rawWP[t] otherwise. -/
theorem pipeline_timeout_succ_raw {rows : List PbpRow} {initwp : Rat} {winner : Winner}
    {s : WPState} (h : pbpWPAdjust rows initwp winner = .ok s) {t : Nat}
    (ht : t ∈ timeoutIdxs rows) (ht1 : t + 1 ∉ timeoutIdxs rows)
    (hb1 : t + 1 ∉ zeroSecIdxs rows) (hb2 : t + 2 ∉ zeroSecIdxs rows)
    (hwp : ∀ (i : Nat) (r : PbpRow), rows[i]? = some r → r.home_wp.isSome) :
    cell s.wpa (t + 1) =
      if t + 2 < rows.length
      then osub (cell (rows.map PbpRow.home_wp) (t + 1))
        (cell (rows.map PbpRow.home_wp) t)
      else osub (some (finalWPOf winner)) (cell (rows.map PbpRow.home_wp) t) := by
  have hsucc : t + 1 < rows.length := pipeline_timeout_succ_lt h ht
  have hmain := pipeline_timeout_succ h ht ht1
  have horiglen : (rows.map PbpRow.home_wp).length = rows.length :=
    List.length_map _ _
  have hcellsome : ∀ j, j < rows.length →
      (cell (rows.map PbpRow.home_wp) j).isSome := by
    intro j hj
    have hr : rows[j]? = some (rows.get ⟨j, hj⟩) := by
      rw [List.getElem?_eq_getElem hj]
      rfl
    rw [cell_map_home_wp, hr]
    exact hwp j _ hr
  have h1 : cell (shift1 (rows.map PbpRow.home_wp)) (t + 1) =
      cell (rows.map PbpRow.home_wp) t :=
    cell_shift1_succ (by rw [horiglen]; omega)
  have hsome1 : (cell (shift1 (rows.map PbpRow.home_wp)) (t + 1)).isSome := by
    rw [h1]
    exact hcellsome t (by omega)
  have hwpt1 : cell s.wp (t + 1) = cell (rows.map PbpRow.home_wp) t := by
    rw [pipeline_wp_notmem h hb1, cell_ffill_of_isSome hsome1, h1]
  by_cases hlt : t + 2 < rows.length
  · have h2 : cell (shift1 (rows.map PbpRow.home_wp)) (t + 1 + 1) =
        cell (rows.map PbpRow.home_wp) (t + 1) :=
      cell_shift1_succ (by rw [horiglen]; omega)
    have hsome2 : (cell (shift1 (rows.map PbpRow.home_wp)) (t + 1 + 1)).isSome := by
      rw [h2]
      exact hcellsome (t + 1) (by omega)
    have hwpt2 : cell s.wp (t + 2) = cell (rows.map PbpRow.home_wp) (t + 1) := by
      rw [pipeline_wp_notmem h hb2]
      show cell (ffill (shift1 (rows.map PbpRow.home_wp))) (t + 1 + 1) =
        cell (rows.map PbpRow.home_wp) (t + 1)
      rw [cell_ffill_of_isSome hsome2, h2]
    rw [hmain, if_pos hlt, if_pos hlt, hwpt1, hwpt2]
  · rw [hmain, if_neg hlt, if_neg hlt, hwpt1]

/-! Inserting a timeout row. -/

theorem length_insertTimeoutAt {rows : List PbpRow} {t : Nat} (h : t ≤ rows.length) :
    (insertTimeoutAt t rows).length = rows.length + 1 := by
  unfold insertTimeoutAt
  simp only [List.length_append, List.length_take, List.length_drop,
    List.length_cons, List.length_nil]
  omega

theorem getElem?_insertTimeoutAt {rows : List PbpRow} {t : Nat}
    (hts : t ≤ rows.length) (i : Nat) :
    (insertTimeoutAt t rows)[i]? =
      if i < t then rows[i]?
      else if i = t then some (insertedTimeoutRow rows t)
      else rows[i - 1]? := by
  unfold insertTimeoutAt
  rw [List.getElem?_append, List.getElem?_append]
  have hlt : (rows.take t).length = t := by
    rw [List.length_take]
    omega
  have hlt2 : (rows.take t ++ [insertedTimeoutRow rows t]).length = t + 1 := by
    rw [List.length_append, hlt]
    rfl
  by_cases h1 : i < t
  · rw [if_pos (by omega : i < (rows.take t ++ _).length ), if_pos (by omega), if_pos h1,
      List.getElem?_take, if_pos h1]
  · by_cases h2 : i = t
    · subst h2
      rw [if_pos (by omega : i < (rows.take i ++ _).length), if_neg (by omega),
        if_neg (by omega), if_pos rfl]
      have : i - (rows.take i).length = 0 := by omega
      rw [this]
      rfl
    · rw [if_neg (by omega : ¬ i < (rows.take t ++ _).length), if_neg h1, if_neg h2,
        List.getElem?_drop]
      congr 1
      omega

/-- Timeout neutrality: inserting a timeout row in the interior of a
game without timeouts (copying the raw win probability of the previous
row) zeroes that row's wpa and leaves the wpa total of the game
unchanged. -/
theorem insert_timeout_neutral {rows : List PbpRow} (initwp : Rat) (winner : Winner)
    {t : Nat} (hn2 : 2 ≤ rows.length)
    (hsec : ∀ (i : Nat) (r : PbpRow), rows[i]? = some r → (r.secsElapsed = 0 ↔ i = 0))
    (hwp : ∀ (i : Nat) (r : PbpRow), rows[i]? = some r → r.home_wp.isSome)
    (hnoTO : ∀ (i : Nat) (r : PbpRow), rows[i]? = some r → r.isTimeout = false)
    (ht1 : 1 ≤ t) (ht2 : t ≤ rows.length - 1) :
    ∃ s s', pbpWPAdjust rows initwp winner = .ok s ∧
      pbpWPAdjust (insertTimeoutAt t rows) initwp winner = .ok s' ∧
      cell s'.wpa t = some 0 ∧
      wpaSum s'.wpa = wpaSum s.wpa := by
  have hts : t ≤ rows.length := by omega
  obtain ⟨s, hok, hwp0, hsum⟩ := adjust_telescope initwp winner hn2 hsec hwp
    (fun u r hr hrT => absurd (hnoTO u r hr) (by rw [hrT]; simp))
  have hget := getElem?_insertTimeoutAt hts
  have hnewwp : (insertedTimeoutRow rows t).home_wp.isSome := by
    show ((rows[t - 1]?).bind PbpRow.home_wp).isSome
    have hr : rows[t - 1]? = some (rows.get ⟨t - 1, by omega⟩) := by
      rw [List.getElem?_eq_getElem (by omega : t - 1 < rows.length)]
      rfl
    rw [hr]
    exact hwp (t - 1) _ hr
  have hsec' : ∀ (i : Nat) (r : PbpRow),
      (insertTimeoutAt t rows)[i]? = some r → (r.secsElapsed = 0 ↔ i = 0) := by
    intro i r hr
    rw [hget i] at hr
    by_cases h1 : i < t
    · rw [if_pos h1] at hr
      exact hsec i r hr
    · by_cases h2 : i = t
      · subst h2
        rw [if_neg (by omega), if_pos rfl] at hr
        injection hr with hr'
        subst hr'
        constructor
        · intro hcon
          exact absurd hcon (by unfold insertedTimeoutRow; simp)
        · intro hcon; omega
      · rw [if_neg h1, if_neg h2] at hr
        have := hsec (i - 1) r hr
        constructor
        · intro h0
          have := this.mp h0
          omega
        · intro h0
          omega
  have hwp' : ∀ (i : Nat) (r : PbpRow),
      (insertTimeoutAt t rows)[i]? = some r → r.home_wp.isSome := by
    intro i r hr
    rw [hget i] at hr
    by_cases h1 : i < t
    · rw [if_pos h1] at hr
      exact hwp i r hr
    · by_cases h2 : i = t
      · subst h2
        rw [if_neg (by omega), if_pos rfl] at hr
        injection hr with hr'
        subst hr'
        exact hnewwp
      · rw [if_neg h1, if_neg h2] at hr
        exact hwp (i - 1) r hr
  have hto' : ∀ (u : Nat) (r : PbpRow),
      (insertTimeoutAt t rows)[u]? = some r → r.isTimeout = true →
      1 ≤ u ∧ u + 2 ≤ (insertTimeoutAt t rows).length ∧
        r.home_wp = ((insertTimeoutAt t rows)[u - 1]?).bind PbpRow.home_wp := by
    intro u r hr hrT
    rw [hget u] at hr
    by_cases h1 : u < t
    · rw [if_pos h1] at hr
      exact absurd (hnoTO u r hr) (by rw [hrT]; simp)
    · by_cases h2 : u = t
      · subst h2
        rw [if_neg (by omega), if_pos rfl] at hr
        injection hr with hr'
        subst hr'
        refine ⟨ht1, ?_, ?_⟩
        · rw [length_insertTimeoutAt hts]
          omega
        · rw [hget (u - 1), if_pos (by omega)]
          rfl
      · rw [if_neg h1, if_neg h2] at hr
        exact absurd (hnoTO (u - 1) r hr) (by rw [hrT]; simp)
  obtain ⟨s', hok', hwp0', hsum'⟩ := adjust_telescope initwp winner
    (by rw [length_insertTimeoutAt hts]; omega) hsec' hwp' hto'
  refine ⟨s, s', hok, hok', ?_, ?_⟩
  · refine pipeline_timeout_zero hok'
      (mem_timeoutIdxs.mpr ⟨insertedTimeoutRow rows t, ?_, rfl⟩)
    rw [hget t, if_neg (by omega), if_pos rfl]
  · rw [hsum, hsum']

/-! Claim theorems. -/

/-- C10: for every non-string details input (the numeric NaN sentinel
emitted by the table extractor), parsePlay returns None rather than any
record; it does not produce an Unparsed record in this case. -/
theorem nonstring_returns_none (tmap : String → Option String) (hm aw : String)
    (ihm : Bool) : parsePlay tmap .nonString hm aw ihm = none := rfl

/-- C9: every record parsePlay returns, of every kind including the
unparsed fallback, carries the original description text, the home team
id, the away team id and the isHomePlay flag equal to the inputs, and a
jump-ball record leaves team and opp unset. -/
theorem record_base_fields (tmap : String → Option String) (d hm aw : String)
    (ihm : Bool) (p : Play) (hp : parsePlay tmap (.str d) hm aw ihm = some p) :
    (p.detail = d ∧ p.home = hm ∧ p.away = aw ∧ p.isHomePlay = ihm) ∧
    (p.isJumpBall = true → p.team = none ∧ p.opp = none) := by
  simp only [parsePlay] at hp
  repeat' split at hp
  all_goals (try cases hp)
  all_goals exact ⟨⟨rfl, rfl, rfl, rfl⟩, by simp⟩

/-- C9 witness: the fallback record of an unparsable string carries the
four base fields. -/
theorem record_base_fields_witness :
    ∃ p, parsePlay (fun _ => none) (.str "zzz unparsable zzz") "BOS" "LAL" true = some p ∧
      p.detail = "zzz unparsable zzz" ∧ p.home = "BOS" ∧ p.away = "LAL" ∧
      p.isHomePlay = true := by
  refine ⟨_, rfl, ?_⟩
  have h := record_base_fields (fun _ => none) "zzz unparsable zzz" "BOS" "LAL" true _ rfl
  exact ⟨h.1.1, h.1.2.1, h.1.2.2.1, h.1.2.2.2⟩

/-- C8: on every description matched by the field-goal grammar the made
flag is set exactly when the captured verb is the string makes, the
three-point flag exactly when the captured type is the string 3, an
absent distance capture defaults to 0 rather than a null, and team and
opp are the row's side and its opponent. -/
theorem fga_normalization (tmap : String → Option String) (d hm aw : String)
    (ihm : Bool) (c : Caps) (hmatch : matchRE shotRE d = some c) :
    ∃ p, parsePlay tmap (.str d) hm aw ihm = some p ∧
      p.isFGA = true ∧
      p.isFGM = (capsFind c "isFGM" == some "makes") ∧
      p.isThree = (capsFind c "isThree" == some "3") ∧
      p.shotDist = some (distToInt (capsFind c "shotDist")) ∧
      (capsFind c "shotDist" = none → p.shotDist = some 0) ∧
      p.team = some (if ihm then hm else aw) ∧
      p.opp = some (if ihm then aw else hm) := by
  simp only [parsePlay, hmatch]
  refine ⟨_, rfl, rfl, rfl, rfl, rfl, ?_, rfl, rfl⟩
  intro h
  show some (distToInt (capsFind c "shotDist")) = some 0
  rw [h]
  rfl

/-- C8 witness: the two concrete shot descriptions of the claim, one
with an explicit distance and one in the at-rim form. -/
theorem fga_normalization_witness :
    (∃ p, parsePlay (fun _ => none) (.str "Bob23 makes 2-pt shot from 15 ft")
        "BOS" "LAL" true = some p ∧
      p.isFGM = true ∧ p.isThree = false ∧ p.shotDist = some 15 ∧
      p.team = some "BOS" ∧ p.opp = some "LAL") ∧
    (∃ q, parsePlay (fun _ => none) (.str "Bob23 makes 2-pt shot at rim")
        "BOS" "LAL" true = some q ∧
      q.shotDist = some 0) := by
  constructor
  · obtain ⟨p, hp, h1, h2, h3, h4, h5, h6, h7⟩ :=
      fga_normalization (fun _ => none) "Bob23 makes 2-pt shot from 15 ft" "BOS" "LAL" true
        [("shooter", "Bob23"), ("isFGM", "makes"), ("isThree", "2"), ("shotDist", "15")] rfl
    exact ⟨p, hp, by rw [h2]; rfl, by rw [h3]; rfl, by rw [h4]; rfl,
      by rw [h6]; rfl, by rw [h7]; rfl⟩
  · obtain ⟨q, hq, h1, h2, h3, h4, h5, h6, h7⟩ :=
      fga_normalization (fun _ => none) "Bob23 makes 2-pt shot at rim" "BOS" "LAL" true
        [("shooter", "Bob23"), ("isFGM", "makes"), ("isThree", "2")] rfl
    exact ⟨q, hq, h5 rfl⟩

/-- C1 counterexample: the description of the claim matches the
turnover grammar with the offensive-foul reason captured, does not
match the offensive-foul grammar (which is anchored at the string
start), and parsePlay returns None on it — neither an OffensiveFoul nor
a Turnover record, contrary to the claim. -/
theorem turnover_offFoul_counterexample :
    (∃ c, matchRE toRE "Turnover by Smith32 (offensive foul)" = some c ∧
      (capsFind c "isOffFoul").isSome) ∧
    matchRE offFoulRE "Turnover by Smith32 (offensive foul)" = none ∧
    parsePlay (fun _ => none) (.str "Turnover by Smith32 (offensive foul)")
      "BOS" "LAL" true = none :=
  ⟨⟨[("turnoverBy", "Smith32"), ("isOffFoul", "offensive foul")], rfl, rfl⟩, rfl, rfl⟩

/-- C1 amended: a description reaching the turnover rule whose captured
reason is the offensive-foul alternative is dropped: parsePlay returns
None, and the later offensive-foul rule never sees it. -/
theorem turnover_offFoul_returns_none (tmap : String → Option String)
    (d hm aw : String) (ihm : Bool) (c : Caps)
    (h1 : matchRE shotRE d = none) (h2 : matchRE jumpRE d = none)
    (h3 : matchRE rebRE d = none) (h4 : matchRE shotFoulRE d = none)
    (h5 : matchRE ftRE d = none) (h6 : matchRE subRE d = none)
    (h7 : matchRE toRE d = some c) (hoff : (capsFind c "isOffFoul").isSome) :
    parsePlay tmap (.str d) hm aw ihm = none := by
  simp [parsePlay, h1, h2, h3, h4, h5, h6, h7, hoff]

/-- C1 witness: the amended theorem applied to a concrete
offensive-foul turnover description. -/
theorem turnover_offFoul_returns_none_witness :
    parsePlay (fun _ => none) (.str "Turnover by Patel07 (offensive foul)")
      "NYK" "CHI" false = none :=
  turnover_offFoul_returns_none (fun _ => none) _ "NYK" "CHI" false
    [("turnoverBy", "Patel07"), ("isOffFoul", "offensive foul")]
    rfl rfl rfl rfl rfl rfl rfl rfl

/-- C6 counterexample: a string input on which parsePlay returns None,
contradicting the claim that it returns a record for every string. -/
theorem classify_null_counterexample :
    parsePlay (fun _ => none) (.str "Turnover by Green05 (offensive foul)")
      "NYK" "CHI" false = none := rfl

/-- All eighteen grammar rules fail on the description. -/
def noRuleMatches (d : String) : Bool :=
  (matchRE shotRE d).isNone && (matchRE jumpRE d).isNone &&
  (matchRE rebRE d).isNone && (matchRE shotFoulRE d).isNone &&
  (matchRE ftRE d).isNone && (matchRE subRE d).isNone &&
  (matchRE toRE d).isNone && (matchRE offFoulRE d).isNone &&
  (matchRE foulRE d).isNone && (matchRE looseBallRE d).isNone &&
  (matchRE awayFromBallRE d).isNone && (matchRE inboundRE d).isNone &&
  (matchRE flagrantRE d).isNone && (matchRE clearPathRE d).isNone &&
  (matchRE timeoutRE d).isNone && (matchRE techRE d).isNone &&
  (matchRE def3TechRE d).isNone && (matchRE violRE d).isNone

/-- C6 amended: parsePlay returns a record for every string input
except a turnover whose captured reason is the offensive foul
alternative, where it returns None; and when no grammar rule matches it
returns the bare record carrying only the four input fields. -/
theorem classify_totality (tmap : String → Option String) (d hm aw : String)
    (ihm : Bool) :
    ((∃ c, matchRE toRE d = some c ∧ (capsFind c "isOffFoul").isSome ∧
        parsePlay tmap (.str d) hm aw ihm = none) ∨
      ∃ p, parsePlay tmap (.str d) hm aw ihm = some p) ∧
    (noRuleMatches d = true →
      parsePlay tmap (.str d) hm aw ihm =
        some { detail := d, home := hm, away := aw, isHomePlay := ihm }) := by
  constructor
  · rcases h1 : matchRE shotRE d with _ | c1
    case some => refine Or.inr ?_; simp only [parsePlay, h1]; exact ⟨_, rfl⟩
    rcases h2 : matchRE jumpRE d with _ | c2
    case some => refine Or.inr ?_; simp only [parsePlay, h1, h2]; exact ⟨_, rfl⟩
    rcases h3 : matchRE rebRE d with _ | c3
    case some => refine Or.inr ?_; simp only [parsePlay, h1, h2, h3]; exact ⟨_, rfl⟩
    rcases h4 : matchRE shotFoulRE d with _ | c4
    case some => refine Or.inr ?_; simp only [parsePlay, h1, h2, h3, h4]; exact ⟨_, rfl⟩
    rcases h5 : matchRE ftRE d with _ | c5
    case some => refine Or.inr ?_; simp only [parsePlay, h1, h2, h3, h4, h5]; exact ⟨_, rfl⟩
    rcases h6 : matchRE subRE d with _ | c6
    case some => refine Or.inr ?_; simp only [parsePlay, h1, h2, h3, h4, h5, h6]; exact ⟨_, rfl⟩
    rcases h7 : matchRE toRE d with _ | c7
    case some =>
      by_cases hoff : (capsFind c7 "isOffFoul").isSome
      · refine Or.inl ⟨c7, rfl, hoff, ?_⟩
        simp [parsePlay, h1, h2, h3, h4, h5, h6, h7, hoff]
      · refine Or.inr ?_
        simp only [parsePlay, h1, h2, h3, h4, h5, h6, h7,
          Bool.not_eq_true] at hoff ⊢
        rw [if_neg (by rw [hoff]; intro hc; cases hc)]
        exact ⟨_, rfl⟩
    rcases h8 : matchRE offFoulRE d with _ | c8
    case some =>
      refine Or.inr ?_
      simp only [parsePlay, h1, h2, h3, h4, h5, h6, h7, h8]
      exact ⟨_, rfl⟩
    rcases h9 : matchRE foulRE d with _ | c9
    case some =>
      refine Or.inr ?_
      simp only [parsePlay, h1, h2, h3, h4, h5, h6, h7, h8, h9]
      exact ⟨_, rfl⟩
    rcases h10 : matchRE looseBallRE d with _ | c10
    case some =>
      refine Or.inr ?_
      simp only [parsePlay, h1, h2, h3, h4, h5, h6, h7, h8, h9, h10]
      exact ⟨_, rfl⟩
    rcases h11 : matchRE awayFromBallRE d with _ | c11
    case some =>
      refine Or.inr ?_
      simp only [parsePlay, h1, h2, h3, h4, h5, h6, h7, h8, h9, h10, h11]
      exact ⟨_, rfl⟩
    rcases h12 : matchRE inboundRE d with _ | c12
    case some =>
      refine Or.inr ?_
      simp only [parsePlay, h1, h2, h3, h4, h5, h6, h7, h8, h9, h10, h11, h12]
      exact ⟨_, rfl⟩
    rcases h13 : matchRE flagrantRE d with _ | c13
    case some =>
      refine Or.inr ?_
      simp only [parsePlay, h1, h2, h3, h4, h5, h6, h7, h8, h9, h10, h11, h12, h13]
      exact ⟨_, rfl⟩
    rcases h14 : matchRE clearPathRE d with _ | c14
    case some =>
      refine Or.inr ?_
      simp only [parsePlay, h1, h2, h3, h4, h5, h6, h7, h8, h9, h10, h11, h12, h13, h14]
      exact ⟨_, rfl⟩
    rcases h15 : matchRE timeoutRE d with _ | c15
    case some =>
      refine Or.inr ?_
      simp only [parsePlay, h1, h2, h3, h4, h5, h6, h7, h8, h9, h10, h11, h12, h13, h14,
        h15]
      exact ⟨_, rfl⟩
    rcases h16 : matchRE techRE d with _ | c16
    case some =>
      refine Or.inr ?_
      simp only [parsePlay, h1, h2, h3, h4, h5, h6, h7, h8, h9, h10, h11, h12, h13, h14,
        h15, h16]
      exact ⟨_, rfl⟩
    rcases h17 : matchRE def3TechRE d with _ | c17
    case some =>
      refine Or.inr ?_
      simp only [parsePlay, h1, h2, h3, h4, h5, h6, h7, h8, h9, h10, h11, h12, h13, h14,
        h15, h16, h17]
      exact ⟨_, rfl⟩
    rcases h18 : matchRE violRE d with _ | c18
    case some =>
      refine Or.inr ?_
      simp only [parsePlay, h1, h2, h3, h4, h5, h6, h7, h8, h9, h10, h11, h12, h13, h14,
        h15, h16, h17, h18]
      exact ⟨_, rfl⟩
    refine Or.inr ?_
    simp only [parsePlay, h1, h2, h3, h4, h5, h6, h7, h8, h9, h10, h11, h12, h13, h14,
      h15, h16, h17, h18]
    exact ⟨_, rfl⟩
  · intro h
    simp only [noRuleMatches, Bool.and_eq_true, Option.isNone_iff_eq_none] at h
    obtain ⟨⟨⟨⟨⟨⟨⟨⟨⟨⟨⟨⟨⟨⟨⟨⟨⟨k1, k2⟩, k3⟩, k4⟩, k5⟩, k6⟩, k7⟩, k8⟩, k9⟩, k10⟩,
      k11⟩, k12⟩, k13⟩, k14⟩, k15⟩, k16⟩, k17⟩, k18⟩ := h
    simp only [parsePlay, k1, k2, k3, k4, k5, k6, k7, k8, k9, k10, k11, k12, k13, k14,
      k15, k16, k17, k18]

/-- C6 witness: the totality disjunction at a dropped turnover string
and the fallback clause at an unparsable string. -/
theorem classify_totality_witness :
    (parsePlay (fun _ => none) (.str "Turnover by Green05 (offensive foul)")
        "NYK" "CHI" false = none →
      ∃ c, matchRE toRE "Turnover by Green05 (offensive foul)" = some c ∧
        (capsFind c "isOffFoul").isSome) ∧
    parsePlay (fun _ => none) (.str "no grammar here") "NYK" "CHI" false =
      some { detail := "no grammar here", home := "NYK", away := "CHI",
             isHomePlay := false } := by
  constructor
  · intro hnone
    rcases (classify_totality (fun _ => none)
        "Turnover by Green05 (offensive foul)" "NYK" "CHI" false).1 with
      ⟨c, hc, hoff, _⟩ | ⟨p, hp⟩
    · exact ⟨c, hc, hoff⟩
    · rw [hnone] at hp; cases hp
  · exact (classify_totality (fun _ => none) "no grammar here" "NYK" "CHI" false).2 rfl

/-- C7 counterexample: on the personal-foul example the classifier sets
team to the side opposite the row but sets foulTeam to the record's opp
field — the row's own side — so foulTeam differs from team, contrary to
the claim that foulTeam equals team. -/
theorem personalfoul_foulTeam_counterexample :
    ∃ p, parsePlay (fun _ => none)
        (.str "Personal foul by Smith32 (drawn by Jones14)") "BOS" "LAL" true = some p ∧
      p.fouler = some "Smith32" ∧ p.team = some "LAL" ∧
      p.foulTeam = some "BOS" ∧ p.foulTeam ≠ p.team := by
  refine ⟨_, rfl, rfl, rfl, rfl, by simp⟩

/-- C7 amended: on every personal-foul description the classifier
attributes team to the side opposite the row and sets foulTeam to the
record's opp field, the row's own side, which differs from team whenever
the two team ids differ. -/
theorem personalfoul_attribution (tmap : String → Option String)
    (d hm aw : String) (ihm : Bool) (c : Caps)
    (h1 : matchRE shotRE d = none) (h2 : matchRE jumpRE d = none)
    (h3 : matchRE rebRE d = none) (h4 : matchRE shotFoulRE d = none)
    (h5 : matchRE ftRE d = none) (h6 : matchRE subRE d = none)
    (h7 : matchRE toRE d = none) (h8 : matchRE offFoulRE d = none)
    (h9 : matchRE foulRE d = some c) :
    ∃ p, parsePlay tmap (.str d) hm aw ihm = some p ∧
      p.isFoul = true ∧ p.fouler = capsFind c "fouler" ∧
      p.team = some (if ihm then aw else hm) ∧
      p.opp = some (if ihm then hm else aw) ∧
      p.foulTeam = p.opp ∧
      (hm ≠ aw → p.foulTeam ≠ p.team) := by
  simp only [parsePlay, h1, h2, h3, h4, h5, h6, h7, h8, h9]
  refine ⟨_, rfl, rfl, rfl, rfl, rfl, rfl, ?_⟩
  intro hne heq
  cases ihm with
  | true =>
    simp only [if_pos rfl] at heq
    injection heq with h'
    exact hne h'
  | false =>
    simp at heq
    exact hne heq.symm

/-- C7 witness: the amended theorem at the concrete example of the
claim. -/
theorem personalfoul_attribution_witness :
    ∃ p, parsePlay (fun _ => none)
        (.str "Personal foul by Smith32 (drawn by Jones14)") "BOS" "LAL" true = some p ∧
      p.fouler = some "Smith32" ∧ p.team = some "LAL" ∧ p.foulTeam = p.opp ∧
      p.foulTeam ≠ p.team := by
  obtain ⟨p, hp, hfoul, hfouler, hteam, hopp, hft, hne⟩ :=
    personalfoul_attribution (fun _ => none)
      "Personal foul by Smith32 (drawn by Jones14)" "BOS" "LAL" true
      [("fouler", "Smith32"), ("drewFoul", "Jones14")]
      rfl rfl rfl rfl rfl rfl rfl rfl rfl
  exact ⟨p, hp, by rw [hfouler]; rfl, by rw [hteam]; rfl, hft, hne (by decide)⟩

/-- Pointwise facts about list entries from a bounded quantifier, so
concrete instances can be discharged by evaluation. -/
theorem forall_of_getElem {P : Nat → PbpRow → Prop} (rows : List PbpRow)
    (h : ∀ i, ∀ hi : i < rows.length, P i (rows.get ⟨i, hi⟩)) :
    ∀ (i : Nat) (r : PbpRow), rows[i]? = some r → P i r := by
  intro i r hr
  rcases List.getElem?_eq_some_iff.mp hr with ⟨hi, he⟩
  exact he ▸ h i hi

/-- A two-period game used for the boundary claims: rows 0 and 2 have
zero elapsed seconds. -/
def twoPeriodRows : List PbpRow :=
  [⟨0, false, some 50⟩, ⟨10, false, some 60⟩, ⟨0, false, some 65⟩, ⟨10, false, some 70⟩]

/-- C2 counterexample: at the second period's first play (index 2) the
pass writes the pregame value 48, not the prior period's closing
corrected value 50 nor the prior raw value 60 carried forward. -/
theorem boundary_counterexample :
    pbpWPAdjust twoPeriodRows 48 .home =
      .ok ⟨[some 48, some 50, some 48, some 65], [some 2, some 10, some 17, some 35]⟩ ∧
    2 ∈ zeroSecIdxs twoPeriodRows ∧ (2 : Nat) ≠ 0 ∧
    cell [some (48 : Rat), some 50, some 48, some 65] 2 = some 48 ∧
    cell [some (48 : Rat), some 50, some 48, some 65] 1 = some 50 ∧
    some (48 : Rat) ≠ some (50 : Rat) ∧ some (48 : Rat) ≠ some (60 : Rat) := by
  refine ⟨?_, by decide, by decide, by norm_num [cell], by norm_num [cell],
    by norm_num, by norm_num⟩
  norm_num [pbpWPAdjust, zeroSecIdxs, timeoutIdxs, boundaryFix, lastFix, timeoutFix,
    ixRead, cell, osub, diffCol, shift1, ffill, ffillGo, finalWPOf, twoPeriodRows,
    List.range_succ]

/-- C2 amended: the pass writes the pregame win probability at every
zero-second row, first play of the game or not, and sets that row's wpa
to the lagged forward-filled value at the following index minus the
pregame value, provided the timeout pass does not later overwrite the
entry. -/
theorem boundary_zeroSec_pregame (rows : List PbpRow) (initwp : Rat)
    (winner : Winner) (s : WPState) (i : Nat)
    (hok : pbpWPAdjust rows initwp winner = .ok s)
    (hi : i ∈ zeroSecIdxs rows)
    (hnt : ∀ t ∈ timeoutIdxs rows, i ≠ t ∧ i ≠ t + 1) :
    cell s.wp i = some initwp ∧
    cell s.wpa i =
      osub (cell (ffill (shift1 (rows.map PbpRow.home_wp))) (i + 1)) (some initwp) :=
  ⟨pipeline_wp_boundary hok hi, pipeline_wpa_boundary hok hi hnt⟩

/-- C2 witness: the amended theorem at the second period boundary of
the two-period game. -/
theorem boundary_zeroSec_pregame_witness :
    ∃ s, pbpWPAdjust twoPeriodRows 48 .home = .ok s ∧
      cell s.wp 2 = some 48 ∧
      cell s.wpa 2 =
        osub (cell (ffill (shift1 (twoPeriodRows.map PbpRow.home_wp))) 3) (some 48) := by
  have hok : pbpWPAdjust twoPeriodRows 48 .home =
      .ok ⟨[some 48, some 50, some 48, some 65], [some 2, some 10, some 17, some 35]⟩ := by
    norm_num [pbpWPAdjust, zeroSecIdxs, timeoutIdxs, boundaryFix, lastFix, timeoutFix,
      ixRead, cell, osub, diffCol, shift1, ffill, ffillGo, finalWPOf, twoPeriodRows,
      List.range_succ]
  have h := boundary_zeroSec_pregame twoPeriodRows 48 .home _ 2 hok (by decide) (by decide)
  exact ⟨_, hok, h.1, h.2⟩

/-- A five-play home-win game whose raw win probabilities are
50, 55, 60, 58, 62. -/
def fivePlayRows : List PbpRow :=
  [⟨0, false, some 50⟩, ⟨1, false, some 55⟩, ⟨2, false, some 60⟩,
   ⟨3, false, some 58⟩, ⟨4, false, some 62⟩]

/-- C3 counterexample: the corrected win probability at the last index
stays at its lagged value 58 and is not forced to the terminal value
100 of the home win; only the wpa entry is set, to 100 minus 58. -/
theorem lastplay_counterexample :
    pbpWPAdjust fivePlayRows 48 .home =
      .ok ⟨[some 48, some 50, some 55, some 60, some 58],
           [some 2, some 5, some 5, some (-2), some 42]⟩ ∧
    cell [some (48 : Rat), some 50, some 55, some 60, some 58]
      (fivePlayRows.length - 1) = some 58 ∧
    some (58 : Rat) ≠ some (finalWPOf .home) ∧
    cell [some (2 : Rat), some 5, some 5, some (-2), some 42]
      (fivePlayRows.length - 1) = osub (some (finalWPOf .home)) (some 58) := by
  refine ⟨?_, by norm_num [cell, fivePlayRows], by norm_num [finalWPOf],
    by norm_num [cell, osub, finalWPOf, fivePlayRows]⟩
  norm_num [pbpWPAdjust, zeroSecIdxs, timeoutIdxs, boundaryFix, lastFix, timeoutFix,
    ixRead, cell, osub, diffCol, shift1, ffill, ffillGo, finalWPOf, fivePlayRows,
    List.range_succ]

/-- C3 amended: at the last index the pass only sets wpa, to the
terminal value of the winner minus the corrected win probability
recorded there; the corrected win-probability column keeps its lagged
forward-filled value at that index and is not forced to the terminal
value. -/
theorem lastplay_wpa_only (rows : List PbpRow) (initwp : Rat) (winner : Winner)
    (s : WPState) (hok : pbpWPAdjust rows initwp winner = .ok s)
    (hne : rows ≠ []) (hnb : rows.length - 1 ∉ zeroSecIdxs rows) :
    cell s.wpa (rows.length - 1) =
      osub (some (finalWPOf winner)) (cell s.wp (rows.length - 1)) ∧
    cell s.wp (rows.length - 1) =
      cell (ffill (shift1 (rows.map PbpRow.home_wp))) (rows.length - 1) :=
  ⟨pipeline_last hok hne, pipeline_wp_notmem hok hnb⟩

/-- C3 witness: the amended theorem at the five-play game. -/
theorem lastplay_wpa_only_witness :
    ∃ s, pbpWPAdjust fivePlayRows 48 .home = .ok s ∧
      cell s.wpa (fivePlayRows.length - 1) =
        osub (some (finalWPOf .home)) (cell s.wp (fivePlayRows.length - 1)) ∧
      cell s.wp (fivePlayRows.length - 1) =
        cell (ffill (shift1 (fivePlayRows.map PbpRow.home_wp)))
          (fivePlayRows.length - 1) := by
  have hok : pbpWPAdjust fivePlayRows 48 .home =
      .ok ⟨[some 48, some 50, some 55, some 60, some 58],
           [some 2, some 5, some 5, some (-2), some 42]⟩ := by
    norm_num [pbpWPAdjust, zeroSecIdxs, timeoutIdxs, boundaryFix, lastFix, timeoutFix,
      ixRead, cell, osub, diffCol, shift1, ffill, ffillGo, finalWPOf, fivePlayRows,
      List.range_succ]
  have h := lastplay_wpa_only fivePlayRows 48 .home _ hok (by decide) (by decide)
  exact ⟨_, hok, h.1, h.2⟩

/-- A game with a timeout at index 1 whose raw win probability keeps
moving between rows, so the lag of the column being read is visible. -/
def timeoutProbeRows : List PbpRow :=
  [⟨0, false, some 50⟩, ⟨5, true, some 55⟩, ⟨5, false, some 70⟩, ⟨5, false, some 58⟩]

/-- C4 counterexample: with raw win probabilities [50, 55, 70, 58] and a
timeout at index t = 1, the pass leaves wpa[t+1] = 15, which is
rawWP[2] - rawWP[1] = 70 - 55, while the claimed formula
rawWP[t+2] - rawWP[t+1] evaluates to 58 - 70 = -12: the reassignment
of lines 334-338 reads the home_wp column after it was lagged by one
row at lines 310-312, not the raw model series. -/
theorem timeout_rawWP_counterexample :
    pbpWPAdjust timeoutProbeRows 48 .home =
      .ok ⟨[some 48, some 50, some 55, some 70],
           [some 2, some 0, some 15, some 30]⟩ ∧
    1 ∈ timeoutIdxs timeoutProbeRows ∧
    1 + 2 < timeoutProbeRows.length ∧
    cell [some (2 : Rat), some 0, some 15, some 30] (1 + 1) = some 15 ∧
    osub (cell (timeoutProbeRows.map PbpRow.home_wp) (1 + 2))
        (cell (timeoutProbeRows.map PbpRow.home_wp) (1 + 1)) = some (-12) ∧
    some (15 : Rat) ≠ some (-12 : Rat) := by
  refine ⟨?_, by decide, by decide, by norm_num [cell], ?_, by norm_num⟩
  · norm_num [pbpWPAdjust, zeroSecIdxs, timeoutIdxs, boundaryFix, lastFix, timeoutFix,
      ixRead, cell, osub, diffCol, shift1, ffill, ffillGo, finalWPOf, timeoutProbeRows,
      List.range_succ]
  · norm_num [cell, osub, timeoutProbeRows]

/-- C4: the timeout pass zeroes wpa on every timeout row; on the row
after a timeout (not itself followed by a timeout, clear of period
boundaries, with the raw win probabilities present) wpa is reassigned
as rawWP[t+1] minus rawWP[t] over the raw model series when index t+2
exists and as the terminal value minus rawWP[t] otherwise, because the
loop reads the home_wp column after it was lagged by one row; and
inserting an interior timeout row carrying its predecessor's raw win
probability into a timeout-free game zeroes that row's wpa and leaves
the game's wpa total unchanged. -/
theorem timeout_redistribution :
    (∀ (rows : List PbpRow) (initwp : Rat) (winner : Winner) (s : WPState) (t : Nat),
      pbpWPAdjust rows initwp winner = .ok s → t ∈ timeoutIdxs rows →
      cell s.wpa t = some 0) ∧
    (∀ (rows : List PbpRow) (initwp : Rat) (winner : Winner) (s : WPState) (t : Nat),
      pbpWPAdjust rows initwp winner = .ok s → t ∈ timeoutIdxs rows →
      t + 1 ∉ timeoutIdxs rows →
      t + 1 ∉ zeroSecIdxs rows → t + 2 ∉ zeroSecIdxs rows →
      (∀ (i : Nat) (r : PbpRow), rows[i]? = some r → r.home_wp.isSome) →
      cell s.wpa (t + 1) =
        (if t + 2 < rows.length
         then osub (cell (rows.map PbpRow.home_wp) (t + 1))
           (cell (rows.map PbpRow.home_wp) t)
         else osub (some (finalWPOf winner)) (cell (rows.map PbpRow.home_wp) t))) ∧
    (∀ (rows : List PbpRow) (initwp : Rat) (winner : Winner) (t : Nat),
      2 ≤ rows.length →
      (∀ (i : Nat) (r : PbpRow), rows[i]? = some r → (r.secsElapsed = 0 ↔ i = 0)) →
      (∀ (i : Nat) (r : PbpRow), rows[i]? = some r → r.home_wp.isSome) →
      (∀ (i : Nat) (r : PbpRow), rows[i]? = some r → r.isTimeout = false) →
      1 ≤ t → t ≤ rows.length - 1 →
      ∃ s s', pbpWPAdjust rows initwp winner = .ok s ∧
        pbpWPAdjust (insertTimeoutAt t rows) initwp winner = .ok s' ∧
        cell s'.wpa t = some 0 ∧ wpaSum s'.wpa = wpaSum s.wpa) :=
  ⟨fun _ _ _ _ _ h ht => pipeline_timeout_zero h ht,
   fun _ _ _ _ _ h ht ht1 hb1 hb2 hwp =>
     pipeline_timeout_succ_raw h ht ht1 hb1 hb2 hwp,
   fun _ initwp winner _ hn2 hsec hwp hnoTO ht1 ht2 =>
     insert_timeout_neutral initwp winner hn2 hsec hwp hnoTO ht1 ht2⟩

/-- A timeout-free five-play game into which a timeout is inserted. -/
def insertBaseRows : List PbpRow :=
  [⟨0, false, some 50⟩, ⟨1, false, some 55⟩, ⟨2, false, some 60⟩,
   ⟨3, false, some 58⟩, ⟨4, false, some 62⟩]

/-- C4 witness: the three parts of the theorem at concrete games. -/
theorem timeout_redistribution_witness :
    (∃ s, pbpWPAdjust timeoutProbeRows 48 .home = .ok s ∧
      cell s.wpa 1 = some 0 ∧
      cell s.wpa (1 + 1) =
        (if 1 + 2 < timeoutProbeRows.length
         then osub (cell (timeoutProbeRows.map PbpRow.home_wp) (1 + 1))
           (cell (timeoutProbeRows.map PbpRow.home_wp) 1)
         else osub (some (finalWPOf .home))
           (cell (timeoutProbeRows.map PbpRow.home_wp) 1))) ∧
    (∃ s s', pbpWPAdjust insertBaseRows 48 .home = .ok s ∧
      pbpWPAdjust (insertTimeoutAt 2 insertBaseRows) 48 .home = .ok s' ∧
      cell s'.wpa 2 = some 0 ∧ wpaSum s'.wpa = wpaSum s.wpa) := by
  constructor
  · have hok : pbpWPAdjust timeoutProbeRows 48 .home =
        .ok ⟨[some 48, some 50, some 55, some 70],
             [some 2, some 0, some 15, some 30]⟩ := by
      norm_num [pbpWPAdjust, zeroSecIdxs, timeoutIdxs, boundaryFix, lastFix, timeoutFix,
        ixRead, cell, osub, diffCol, shift1, ffill, ffillGo, finalWPOf, timeoutProbeRows,
        List.range_succ]
    exact ⟨_, hok,
      timeout_redistribution.1 _ _ _ _ _ hok (by decide),
      timeout_redistribution.2.1 _ _ _ _ _ hok (by decide) (by decide) (by decide)
        (by decide) (forall_of_getElem _ (by decide))⟩
  · exact timeout_redistribution.2.2 insertBaseRows 48 .home 2 (by decide)
      (forall_of_getElem _ (by decide)) (forall_of_getElem _ (by decide))
      (forall_of_getElem _ (by decide)) (by decide) (by decide)

/-- A game whose timeout row jumps the raw win probability, breaking
the telescoping identity. -/
def telescopeBreakRows : List PbpRow :=
  [⟨0, false, some 50⟩, ⟨5, true, some 60⟩, ⟨5, false, some 70⟩, ⟨5, false, some 80⟩]

/-- C5 counterexample: on a game whose timeout row moves the raw win
probability the wpa total is 42 while the terminal value minus the
corrected opening value is 52, so the telescoping identity fails for
this input game. -/
theorem telescoping_counterexample :
    pbpWPAdjust telescopeBreakRows 48 .home =
      .ok ⟨[some 48, some 50, some 60, some 70],
           [some 2, some 0, some 10, some 30]⟩ ∧
    cell [some (48 : Rat), some 50, some 60, some 70] 0 = some 48 ∧
    wpaSum [some (2 : Rat), some 0, some 10, some 30] = 42 ∧
    (42 : Rat) ≠ finalWPOf .home - 48 := by
  refine ⟨?_, by norm_num [cell], by norm_num [wpaSum, List.filterMap_cons],
    by norm_num [finalWPOf]⟩
  norm_num [pbpWPAdjust, zeroSecIdxs, timeoutIdxs, boundaryFix, lastFix, timeoutFix,
    ixRead, cell, osub, diffCol, shift1, ffill, ffillGo, finalWPOf, telescopeBreakRows,
    List.range_succ]

/-- C5 amended: the telescoping identity holds for every game of at
least two rows whose only zero-second row is the first, whose raw win
probabilities are all present, and whose timeout rows are interior and
carry their predecessor's raw win probability: the wpa column sums to
the terminal value of the winner minus the corrected opening value,
which the pass sets to the pregame win probability. -/
theorem telescoping_restricted (rows : List PbpRow) (initwp : Rat) (winner : Winner)
    (s : WPState) (hok : pbpWPAdjust rows initwp winner = .ok s)
    (hn2 : 2 ≤ rows.length)
    (hsec : ∀ (i : Nat) (r : PbpRow), rows[i]? = some r → (r.secsElapsed = 0 ↔ i = 0))
    (hwp : ∀ (i : Nat) (r : PbpRow), rows[i]? = some r → r.home_wp.isSome)
    (hto : ∀ (t : Nat) (r : PbpRow), rows[t]? = some r → r.isTimeout = true →
      1 ≤ t ∧ t + 2 ≤ rows.length ∧ r.home_wp = (rows[t - 1]?).bind PbpRow.home_wp) :
    cell s.wp 0 = some initwp ∧
    wpaSum s.wpa = finalWPOf winner - initwp := by
  obtain ⟨s', hok', h1, h2⟩ := adjust_telescope initwp winner hn2 hsec hwp hto
  rw [hok] at hok'
  injection hok' with he
  subst he
  exact ⟨h1, h2⟩

/-- The five-play game of the claim, raw win probabilities
50, 55, 60, 58, 62 with pregame win probability 48 and a home win. -/
def telescopeRows : List PbpRow :=
  [⟨0, false, some 50⟩, ⟨1, false, some 55⟩, ⟨2, false, some 60⟩,
   ⟨3, false, some 58⟩, ⟨4, false, some 62⟩]

/-- C5 witness: the amended theorem at the five-play game of the claim,
where the wpa total is 100 minus the corrected opening value 48. -/
theorem telescoping_restricted_witness :
    ∃ s, pbpWPAdjust telescopeRows 48 .home = .ok s ∧
      cell s.wp 0 = some 48 ∧ wpaSum s.wpa = 100 - 48 := by
  have hok : pbpWPAdjust telescopeRows 48 .home =
      .ok ⟨[some 48, some 50, some 55, some 60, some 58],
           [some 2, some 5, some 5, some (-2), some 42]⟩ := by
    norm_num [pbpWPAdjust, zeroSecIdxs, timeoutIdxs, boundaryFix, lastFix, timeoutFix,
      ixRead, cell, osub, diffCol, shift1, ffill, ffillGo, finalWPOf, telescopeRows,
      List.range_succ]
  have h := telescoping_restricted telescopeRows 48 .home _ hok (by decide)
    (forall_of_getElem _ (by decide)) (forall_of_getElem _ (by decide))
    (forall_of_getElem _ (by decide))
  refine ⟨_, hok, h.1, ?_⟩
  rw [h.2]
  norm_num [finalWPOf]

end SportsRef
